import Mathlib

/-!
Verification of the hostctl hosts-file manager: a shallow embedding of the
line codec (`src/hosts.rs`), the entry/environment data model
(`src/config.rs`) and the merge/apply engine, together with proofs of the
specified properties.  Strings are modelled as `List Char`; the fallible
file operations of the apply path are modelled by an explicit oracle.
-/

namespace Hostctl

/-- Strings are modelled as lists of characters. -/
abbrev Str := List Char

/-! ## Character classes -/

/-- Rust `char::is_whitespace`: the Unicode White_Space property.  The
codepoint list is fixed and small, so it is transcribed in full. -/
def rustIsWhitespace (c : Char) : Bool :=
  let v := c.toNat
  (9 ≤ v && v ≤ 13) || v == 32 || v == 133 || v == 160 || v == 5760 ||
  (8192 ≤ v && v ≤ 8202) || v == 8232 || v == 8233 || v == 8239 ||
  v == 8287 || v == 12288

/-- The inclusive codepoint ranges accepted by Rust
`char::is_alphanumeric`: the Unicode `Alphabetic` derived property together
with the `Nd`, `Nl` and `No` general categories (Unicode 14.0.0).  The
table lives in the Rust standard library's Unicode data, outside this
repository, so it is transcribed here in full. -/
def alnumRanges : List (Nat × Nat) :=
  [(48, 57), (65, 90), (97, 122), (170, 170), (178, 179), (181, 181),
   (185, 186), (188, 190), (192, 214), (216, 246), (248, 705), (710, 721),
   (736, 740), (748, 748), (750, 750), (837, 837), (880, 884), (886, 887),
   (890, 893), (895, 895), (902, 902), (904, 906), (908, 908), (910, 929),
   (931, 1013), (1015, 1153), (1162, 1327), (1329, 1366), (1369, 1369), (1376, 1416),
   (1456, 1469), (1471, 1471), (1473, 1474), (1476, 1477), (1479, 1479), (1488, 1514),
   (1519, 1522), (1552, 1562), (1568, 1623), (1625, 1641), (1646, 1747), (1749, 1756),
   (1761, 1768), (1773, 1788), (1791, 1791), (1808, 1855), (1869, 1969), (1984, 2026),
   (2036, 2037), (2042, 2042), (2048, 2071), (2074, 2092), (2112, 2136), (2144, 2154),
   (2160, 2183), (2185, 2190), (2208, 2249), (2260, 2271), (2275, 2281), (2288, 2363),
   (2365, 2380), (2382, 2384), (2389, 2403), (2406, 2415), (2417, 2435), (2437, 2444),
   (2447, 2448), (2451, 2472), (2474, 2480), (2482, 2482), (2486, 2489), (2493, 2500),
   (2503, 2504), (2507, 2508), (2510, 2510), (2519, 2519), (2524, 2525), (2527, 2531),
   (2534, 2545), (2548, 2553), (2556, 2556), (2561, 2563), (2565, 2570), (2575, 2576),
   (2579, 2600), (2602, 2608), (2610, 2611), (2613, 2614), (2616, 2617), (2622, 2626),
   (2631, 2632), (2635, 2636), (2641, 2641), (2649, 2652), (2654, 2654), (2662, 2677),
   (2689, 2691), (2693, 2701), (2703, 2705), (2707, 2728), (2730, 2736), (2738, 2739),
   (2741, 2745), (2749, 2757), (2759, 2761), (2763, 2764), (2768, 2768), (2784, 2787),
   (2790, 2799), (2809, 2812), (2817, 2819), (2821, 2828), (2831, 2832), (2835, 2856),
   (2858, 2864), (2866, 2867), (2869, 2873), (2877, 2884), (2887, 2888), (2891, 2892),
   (2902, 2903), (2908, 2909), (2911, 2915), (2918, 2927), (2929, 2935), (2946, 2947),
   (2949, 2954), (2958, 2960), (2962, 2965), (2969, 2970), (2972, 2972), (2974, 2975),
   (2979, 2980), (2984, 2986), (2990, 3001), (3006, 3010), (3014, 3016), (3018, 3020),
   (3024, 3024), (3031, 3031), (3046, 3058), (3072, 3075), (3077, 3084), (3086, 3088),
   (3090, 3112), (3114, 3129), (3133, 3140), (3142, 3144), (3146, 3148), (3157, 3158),
   (3160, 3162), (3165, 3165), (3168, 3171), (3174, 3183), (3192, 3198), (3200, 3203),
   (3205, 3212), (3214, 3216), (3218, 3240), (3242, 3251), (3253, 3257), (3261, 3268),
   (3270, 3272), (3274, 3276), (3285, 3286), (3293, 3294), (3296, 3299), (3302, 3311),
   (3313, 3314), (3328, 3340), (3342, 3344), (3346, 3386), (3389, 3396), (3398, 3400),
   (3402, 3404), (3406, 3406), (3412, 3427), (3430, 3448), (3450, 3455), (3457, 3459),
   (3461, 3478), (3482, 3505), (3507, 3515), (3517, 3517), (3520, 3526), (3535, 3540),
   (3542, 3542), (3544, 3551), (3558, 3567), (3570, 3571), (3585, 3642), (3648, 3654),
   (3661, 3661), (3664, 3673), (3713, 3714), (3716, 3716), (3718, 3722), (3724, 3747),
   (3749, 3749), (3751, 3769), (3771, 3773), (3776, 3780), (3782, 3782), (3789, 3789),
   (3792, 3801), (3804, 3807), (3840, 3840), (3872, 3891), (3904, 3911), (3913, 3948),
   (3953, 3969), (3976, 3991), (3993, 4028), (4096, 4150), (4152, 4152), (4155, 4169),
   (4176, 4253), (4256, 4293), (4295, 4295), (4301, 4301), (4304, 4346), (4348, 4680),
   (4682, 4685), (4688, 4694), (4696, 4696), (4698, 4701), (4704, 4744), (4746, 4749),
   (4752, 4784), (4786, 4789), (4792, 4798), (4800, 4800), (4802, 4805), (4808, 4822),
   (4824, 4880), (4882, 4885), (4888, 4954), (4969, 4988), (4992, 5007), (5024, 5109),
   (5112, 5117), (5121, 5740), (5743, 5759), (5761, 5786), (5792, 5866), (5870, 5880),
   (5888, 5907), (5919, 5939), (5952, 5971), (5984, 5996), (5998, 6000), (6002, 6003),
   (6016, 6067), (6070, 6088), (6103, 6103), (6108, 6108), (6112, 6121), (6128, 6137),
   (6160, 6169), (6176, 6264), (6272, 6314), (6320, 6389), (6400, 6430), (6432, 6443),
   (6448, 6456), (6470, 6509), (6512, 6516), (6528, 6571), (6576, 6601), (6608, 6618),
   (6656, 6683), (6688, 6750), (6753, 6772), (6784, 6793), (6800, 6809), (6823, 6823),
   (6847, 6848), (6860, 6862), (6912, 6963), (6965, 6979), (6981, 6988), (6992, 7001),
   (7040, 7081), (7084, 7141), (7143, 7153), (7168, 7222), (7232, 7241), (7245, 7293),
   (7296, 7304), (7312, 7354), (7357, 7359), (7401, 7404), (7406, 7411), (7413, 7414),
   (7418, 7418), (7424, 7615), (7655, 7668), (7680, 7957), (7960, 7965), (7968, 8005),
   (8008, 8013), (8016, 8023), (8025, 8025), (8027, 8027), (8029, 8029), (8031, 8061),
   (8064, 8116), (8118, 8124), (8126, 8126), (8130, 8132), (8134, 8140), (8144, 8147),
   (8150, 8155), (8160, 8172), (8178, 8180), (8182, 8188), (8304, 8305), (8308, 8313),
   (8319, 8329), (8336, 8348), (8450, 8450), (8455, 8455), (8458, 8467), (8469, 8469),
   (8473, 8477), (8484, 8484), (8486, 8486), (8488, 8488), (8490, 8493), (8495, 8505),
   (8508, 8511), (8517, 8521), (8526, 8526), (8528, 8585), (9312, 9371), (9398, 9471),
   (10102, 10131), (11264, 11492), (11499, 11502), (11506, 11507), (11517, 11517), (11520, 11557),
   (11559, 11559), (11565, 11565), (11568, 11623), (11631, 11631), (11648, 11670), (11680, 11686),
   (11688, 11694), (11696, 11702), (11704, 11710), (11712, 11718), (11720, 11726), (11728, 11734),
   (11736, 11742), (11744, 11775), (11823, 11823), (12293, 12295), (12321, 12329), (12337, 12341),
   (12344, 12348), (12353, 12438), (12445, 12447), (12449, 12538), (12540, 12543), (12549, 12591),
   (12593, 12686), (12690, 12693), (12704, 12735), (12784, 12799), (12832, 12841), (12872, 12879),
   (12881, 12895), (12928, 12937), (12977, 12991), (13312, 19903), (19968, 42124), (42192, 42237),
   (42240, 42508), (42512, 42539), (42560, 42606), (42612, 42619), (42623, 42735), (42775, 42783),
   (42786, 42888), (42891, 42954), (42960, 42961), (42963, 42963), (42965, 42969), (42994, 43013),
   (43015, 43047), (43056, 43061), (43072, 43123), (43136, 43203), (43205, 43205), (43216, 43225),
   (43250, 43255), (43259, 43259), (43261, 43306), (43312, 43346), (43360, 43388), (43392, 43442),
   (43444, 43455), (43471, 43481), (43488, 43518), (43520, 43574), (43584, 43597), (43600, 43609),
   (43616, 43638), (43642, 43710), (43712, 43712), (43714, 43714), (43739, 43741), (43744, 43759),
   (43762, 43765), (43777, 43782), (43785, 43790), (43793, 43798), (43808, 43814), (43816, 43822),
   (43824, 43866), (43868, 43881), (43888, 44010), (44016, 44025), (44032, 55203), (55216, 55238),
   (55243, 55291), (63744, 64109), (64112, 64217), (64256, 64262), (64275, 64279), (64285, 64296),
   (64298, 64310), (64312, 64316), (64318, 64318), (64320, 64321), (64323, 64324), (64326, 64433),
   (64467, 64829), (64848, 64911), (64914, 64967), (65008, 65019), (65136, 65140), (65142, 65276),
   (65296, 65305), (65313, 65338), (65345, 65370), (65382, 65470), (65474, 65479), (65482, 65487),
   (65490, 65495), (65498, 65500), (65536, 65547), (65549, 65574), (65576, 65594), (65596, 65597),
   (65599, 65613), (65616, 65629), (65664, 65786), (65799, 65843), (65856, 65912), (65930, 65931),
   (66176, 66204), (66208, 66256), (66273, 66299), (66304, 66339), (66349, 66378), (66384, 66426),
   (66432, 66461), (66464, 66499), (66504, 66511), (66513, 66517), (66560, 66717), (66720, 66729),
   (66736, 66771), (66776, 66811), (66816, 66855), (66864, 66915), (66928, 66938), (66940, 66954),
   (66956, 66962), (66964, 66965), (66967, 66977), (66979, 66993), (66995, 67001), (67003, 67004),
   (67072, 67382), (67392, 67413), (67424, 67431), (67456, 67461), (67463, 67504), (67506, 67514),
   (67584, 67589), (67592, 67592), (67594, 67637), (67639, 67640), (67644, 67644), (67647, 67669),
   (67672, 67702), (67705, 67742), (67751, 67759), (67808, 67826), (67828, 67829), (67835, 67867),
   (67872, 67897), (67968, 68023), (68028, 68047), (68050, 68099), (68101, 68102), (68108, 68115),
   (68117, 68119), (68121, 68149), (68160, 68168), (68192, 68222), (68224, 68255), (68288, 68295),
   (68297, 68324), (68331, 68335), (68352, 68405), (68416, 68437), (68440, 68466), (68472, 68497),
   (68521, 68527), (68608, 68680), (68736, 68786), (68800, 68850), (68858, 68903), (68912, 68921),
   (69216, 69246), (69248, 69289), (69291, 69292), (69296, 69297), (69376, 69415), (69424, 69445),
   (69457, 69460), (69488, 69505), (69552, 69579), (69600, 69622), (69632, 69701), (69714, 69743),
   (69745, 69749), (69762, 69816), (69826, 69826), (69840, 69864), (69872, 69881), (69888, 69938),
   (69942, 69951), (69956, 69959), (69968, 70002), (70006, 70006), (70016, 70079), (70081, 70084),
   (70094, 70106), (70108, 70108), (70113, 70132), (70144, 70161), (70163, 70196), (70199, 70199),
   (70206, 70206), (70272, 70278), (70280, 70280), (70282, 70285), (70287, 70301), (70303, 70312),
   (70320, 70376), (70384, 70393), (70400, 70403), (70405, 70412), (70415, 70416), (70419, 70440),
   (70442, 70448), (70450, 70451), (70453, 70457), (70461, 70468), (70471, 70472), (70475, 70476),
   (70480, 70480), (70487, 70487), (70493, 70499), (70656, 70721), (70723, 70725), (70727, 70730),
   (70736, 70745), (70751, 70753), (70784, 70849), (70852, 70853), (70855, 70855), (70864, 70873),
   (71040, 71093), (71096, 71102), (71128, 71133), (71168, 71230), (71232, 71232), (71236, 71236),
   (71248, 71257), (71296, 71349), (71352, 71352), (71360, 71369), (71424, 71450), (71453, 71466),
   (71472, 71483), (71488, 71494), (71680, 71736), (71840, 71922), (71935, 71942), (71945, 71945),
   (71948, 71955), (71957, 71958), (71960, 71989), (71991, 71992), (71995, 71996), (71999, 72002),
   (72016, 72025), (72096, 72103), (72106, 72151), (72154, 72159), (72161, 72161), (72163, 72164),
   (72192, 72242), (72245, 72254), (72272, 72343), (72349, 72349), (72368, 72440), (72704, 72712),
   (72714, 72758), (72760, 72766), (72768, 72768), (72784, 72812), (72818, 72847), (72850, 72871),
   (72873, 72886), (72960, 72966), (72968, 72969), (72971, 73014), (73018, 73018), (73020, 73021),
   (73023, 73025), (73027, 73027), (73030, 73031), (73040, 73049), (73056, 73061), (73063, 73064),
   (73066, 73102), (73104, 73105), (73107, 73110), (73112, 73112), (73120, 73129), (73440, 73462),
   (73648, 73648), (73664, 73684), (73728, 74649), (74752, 74862), (74880, 75075), (77712, 77808),
   (77824, 78894), (82944, 83526), (92160, 92728), (92736, 92766), (92768, 92777), (92784, 92862),
   (92864, 92873), (92880, 92909), (92928, 92975), (92992, 92995), (93008, 93017), (93019, 93025),
   (93027, 93047), (93053, 93071), (93760, 93846), (93952, 94026), (94031, 94087), (94095, 94111),
   (94176, 94177), (94179, 94179), (94192, 94193), (94208, 100343), (100352, 101589), (101632, 101640),
   (110576, 110579), (110581, 110587), (110589, 110590), (110592, 110882), (110928, 110930), (110948, 110951),
   (110960, 111355), (113664, 113770), (113776, 113788), (113792, 113800), (113808, 113817), (113822, 113822),
   (119520, 119539), (119648, 119672), (119808, 119892), (119894, 119964), (119966, 119967), (119970, 119970),
   (119973, 119974), (119977, 119980), (119982, 119993), (119995, 119995), (119997, 120003), (120005, 120069),
   (120071, 120074), (120077, 120084), (120086, 120092), (120094, 120121), (120123, 120126), (120128, 120132),
   (120134, 120134), (120138, 120144), (120146, 120485), (120488, 120512), (120514, 120538), (120540, 120570),
   (120572, 120596), (120598, 120628), (120630, 120654), (120656, 120686), (120688, 120712), (120714, 120744),
   (120746, 120770), (120772, 120779), (120782, 120831), (122624, 122654), (122880, 122886), (122888, 122904),
   (122907, 122913), (122915, 122916), (122918, 122922), (123136, 123180), (123191, 123197), (123200, 123209),
   (123214, 123214), (123536, 123565), (123584, 123627), (123632, 123641), (124896, 124902), (124904, 124907),
   (124909, 124910), (124912, 124926), (124928, 125124), (125127, 125135), (125184, 125251), (125255, 125255),
   (125259, 125259), (125264, 125273), (126065, 126123), (126125, 126127), (126129, 126132), (126209, 126253),
   (126255, 126269), (126464, 126467), (126469, 126495), (126497, 126498), (126500, 126500), (126503, 126503),
   (126505, 126514), (126516, 126519), (126521, 126521), (126523, 126523), (126530, 126530), (126535, 126535),
   (126537, 126537), (126539, 126539), (126541, 126543), (126545, 126546), (126548, 126548), (126551, 126551),
   (126553, 126553), (126555, 126555), (126557, 126557), (126559, 126559), (126561, 126562), (126564, 126564),
   (126567, 126570), (126572, 126578), (126580, 126583), (126585, 126588), (126590, 126590), (126592, 126601),
   (126603, 126619), (126625, 126627), (126629, 126633), (126635, 126651), (127232, 127244), (127280, 127305),
   (127312, 127337), (127344, 127369), (130032, 130041), (131072, 173791), (173824, 177976), (177984, 178205),
   (178208, 183969), (183984, 191456), (194560, 195101), (196608, 201546)]

/-- Rust `char::is_alphanumeric`: `is_alphabetic() || is_numeric()`, i.e.
membership in one of the `alnumRanges`. -/
def rustIsAlphanumeric (c : Char) : Bool :=
  alnumRanges.any (fun r => r.1 ≤ c.toNat && c.toNat ≤ r.2)

/-- Number of bytes of the UTF-8 encoding of a character (Rust
`char::len_utf8`). -/
def utf8Size (c : Char) : Nat :=
  let v := c.toNat
  if v < 128 then 1 else if v < 2048 then 2 else if v < 65536 then 3 else 4

/-- Rust `str::len`: the length of a string in UTF-8 bytes. -/
def utf8Len (s : Str) : Nat := (s.map utf8Size).sum

/-! ## String utilities (Rust `str` methods) -/

/-- Rust `str::trim`: drop whitespace from both ends. -/
def trimStr (s : Str) : Str :=
  ((s.dropWhile rustIsWhitespace).reverse.dropWhile rustIsWhitespace).reverse

/-- Split a string at every character satisfying `p`; adjacent separators
and separators at the ends produce empty pieces (Rust `str::split`
semantics). -/
def splitOnPred (p : Char → Bool) : Str → List Str
  | [] => [[]]
  | c :: cs =>
    if p c then [] :: splitOnPred p cs
    else
      match splitOnPred p cs with
      | [] => [[c]]
      | t :: ts => (c :: t) :: ts

/-- Rust `str::split(sep)` for a single-character pattern. -/
def splitOnChar (sep : Char) (s : Str) : List Str :=
  splitOnPred (fun c => c == sep) s

/-- Rust `str::split_whitespace`: the maximal non-empty runs of
non-whitespace characters. -/
def splitWhitespace (s : Str) : List Str :=
  (splitOnPred rustIsWhitespace s).filter (fun t => !t.isEmpty)

/-- Remove one trailing carriage return, as Rust `str::lines` does. -/
def stripCR (l : Str) : Str :=
  if l.getLast? = some '\r' then l.dropLast else l

/-- Rust `str::lines`: split on `'\n'`, with no trailing empty line and one
trailing `'\r'` stripped from each line. -/
def linesOf (s : Str) : List Str :=
  let ps := splitOnChar '\n' s
  let ps' := if ps.getLast? = some [] then ps.dropLast else ps
  ps'.map stripCR

/-- Does `pat` occur as a leading segment of `s`? -/
def leadsWith : Str → Str → Bool
  | [], _ => true
  | _ :: _, [] => false
  | p :: ps, c :: cs => p == c && leadsWith ps cs

/-- Rust `str::contains(pat)` for a string pattern: substring search. -/
def containsSub (pat : Str) : Str → Bool
  | [] => leadsWith pat []
  | c :: cs => leadsWith pat (c :: cs) || containsSub pat cs

/-! ## Decimal and hexadecimal numerals -/

/-- The digit characters emitted by Rust's `Display`/`LowerHex` formatting
of an unsigned integer digit. -/
def digitChar (d : Nat) : Char :=
  match d with
  | 0 => '0' | 1 => '1' | 2 => '2' | 3 => '3' | 4 => '4'
  | 5 => '5' | 6 => '6' | 7 => '7' | 8 => '8' | 9 => '9'
  | 10 => 'a' | 11 => 'b' | 12 => 'c' | 13 => 'd' | 14 => 'e'
  | _ => 'f'

/-- Fuelled most-significant-first digit expansion of `n` in base `base`. -/
def digitsF (base : Nat) : Nat → Nat → Str
  | 0, _ => []
  | fuel + 1, n =>
    if n < base then [digitChar n]
    else digitsF base fuel (n / base) ++ [digitChar (n % base)]

/-- Decimal numeral of `n`, as Rust `Display` for unsigned integers. -/
def decChars (n : Nat) : Str := digitsF 10 (n + 1) n

/-- Lowercase hexadecimal numeral of `n`, as Rust `LowerHex` (used by the
`Ipv6Addr` display). -/
def hexChars (n : Nat) : Str := digitsF 16 (n + 1) n

/-- Rust `char::to_digit(radix)`: digits `0-9`, letters `a-z`/`A-Z`, value
required to be below the radix. -/
def toDigit? (radix : Nat) (c : Char) : Option Nat :=
  let v := c.toNat
  let d? : Option Nat :=
    if 48 ≤ v ∧ v ≤ 57 then some (v - 48)
    else if 97 ≤ v ∧ v ≤ 122 then some (v - 87)
    else if 65 ≤ v ∧ v ≤ 90 then some (v - 55)
    else none
  match d? with
  | some d => if d < radix then some d else none
  | none => none

/-- Is `c` a digit of base `radix`? -/
def isRadixDigit (radix : Nat) (c : Char) : Bool := (toDigit? radix c).isSome

/-! ## The IP address parser of Rust's standard library

`HostEntry.ip` is a `std::net::IpAddr`; `parse_hosts_line` calls
`parts[0].parse::<IpAddr>()` and `to_line` uses its `Display`.  The
following definitions transcribe `core::net::parser` and the two `Display`
implementations.  Parsers consume a prefix of the input and return the
value together with the unconsumed rest; a failing parser returns `none`
and the caller keeps its original input (Rust's `read_atomically`). -/

/-- Rust `Parser::read_number(radix, Some(maxDigits), allowZeroPad)` at an
unsigned integer type with maximum value `maxVal`: greedily read digits,
failing on no digits, on more than `maxDigits` digits, on overflow past
`maxVal` (the `checked_mul`/`checked_add` of the Rust loop), and on a
leading zero when `allowZeroPad` is false. -/
def readNumberF (radix maxDigits maxVal : Nat) (allowZeroPad : Bool) (s : Str) :
    Option (Fin (maxVal + 1) × Str) :=
  let ds := s.takeWhile (isRadixDigit radix)
  let rest := s.dropWhile (isRadixDigit radix)
  if ds.isEmpty then none
  else if maxDigits < ds.length then none
  else
    let v := ds.foldl (fun acc c => acc * radix + ((toDigit? radix c).getD 0)) 0
    if h : maxVal < v then none
    else if allowZeroPad = false ∧ ds.head? = some '0' ∧ 1 < ds.length then none
    else some (⟨v, by omega⟩, rest)

/-- Rust `Parser::read_given_char`. -/
def readGivenChar (c : Char) (s : Str) : Option (Unit × Str) :=
  match s with
  | x :: rest => if x = c then some ((), rest) else none
  | [] => none

/-- Rust `Parser::read_separator(sep, index, inner)`: for a non-first
group, require the separator character before running `inner`; atomic. -/
def readSep {α : Type} (sep : Char) (first : Bool) (inner : Str → Option (α × Str))
    (s : Str) : Option (α × Str) :=
  if first then inner s
  else
    match s with
    | x :: rest => if x = sep then inner rest else none
    | [] => none

/-- An IPv4 address: four octets (Rust `Ipv4Addr`). -/
def Ipv4 : Type := { l : List (Fin 256) // l.length = 4 }

instance : DecidableEq Ipv4 := fun a b =>
  decidable_of_iff (a.val = b.val) Subtype.ext_iff.symm

/-- Rust `Parser::read_ipv4_addr`: four decimal octets (at most 3 digits,
value at most 255, no leading zeros) separated by `'.'`. -/
def readIpv4 (s : Str) : Option (Ipv4 × Str) := do
  let (a, s1) ← readNumberF 10 3 255 false s
  let (_, s2) ← readGivenChar '.' s1
  let (b, s3) ← readNumberF 10 3 255 false s2
  let (_, s4) ← readGivenChar '.' s3
  let (c, s5) ← readNumberF 10 3 255 false s4
  let (_, s6) ← readGivenChar '.' s5
  let (d, s7) ← readNumberF 10 3 255 false s6
  some (⟨[a, b, c, d], rfl⟩, s7)

/-- Rust `Display` for `Ipv4Addr`: `"a.b.c.d"` in decimal. -/
def dispIpv4 (q : Ipv4) : Str :=
  match q.val with
  | [a, b, c, d] =>
    decChars a.val ++ '.' :: decChars b.val ++ '.' :: decChars c.val ++
      '.' :: decChars d.val
  | _ => []

/-- An IPv6 address: eight 16-bit groups (Rust `Ipv6Addr` segments). -/
def Ipv6 : Type := { l : List (Fin 65536) // l.length = 8 }

instance : DecidableEq Ipv6 := fun a b =>
  decidable_of_iff (a.val = b.val) Subtype.ext_iff.symm

/-- The 16-bit group formed from two embedded IPv4 octets
(`u16::from_be_bytes`). -/
def group16 (hi lo : Fin 256) : Fin 65536 :=
  ⟨hi.val * 256 + lo.val, by omega⟩

/-- Rust `read_groups` from `read_ipv6_addr`: read up to `fuel` 16-bit hex
groups separated by `':'`; when at least two slots remain, first try a
trailing embedded IPv4 address, which fills two groups and stops the scan
with the flag set.  Returns the groups read, the embedded-IPv4 flag, and
the unconsumed rest. -/
def readGroupsAux : Nat → Bool → Str → (List (Fin 65536) × Bool × Str)
  | 0, _, s => ([], false, s)
  | fuel + 1, first, s =>
    match (if 1 ≤ fuel then readSep ':' first readIpv4 s else none) with
    | some (q, rest) =>
      match q.val, q.property with
      | [a, b, c, d], _ => ([group16 a b, group16 c d], true, rest)
    | none =>
      match readSep ':' first (readNumberF 16 4 65535 true) s with
      | some (g, rest) =>
        let r := readGroupsAux fuel false rest
        (g :: r.1, r.2.1, r.2.2)
      | none => ([], false, s)

/-- Rust `Parser::read_ipv6_addr`: a head group run, then—if fewer than
eight groups were read and the head did not end in an embedded IPv4
address—a literal `"::"` followed by a tail group run; the groups elided by
`"::"` are zero. -/
def readIpv6 (s : Str) : Option (List (Fin 65536) × Str) :=
  let h := readGroupsAux 8 true s
  if h.1.length = 8 then some (h.1, h.2.2)
  else if h.2.1 then none
  else
    match h.2.2 with
    | ':' :: ':' :: s2 =>
      let t := readGroupsAux (8 - (h.1.length + 1)) true s2
      some (h.1 ++ List.replicate (8 - h.1.length - t.1.length) 0 ++ t.1, t.2.2)
    | _ => none

/-- The longest run of zero segments, as computed by the fold in Rust's
`Ipv6Addr` `Display` (first run wins ties); returns `(start, length)`. -/
def lzrAux : List (Fin 65536) → Nat → (Nat × Nat) → (Nat × Nat) → (Nat × Nat)
  | [], _, longest, _ => longest
  | g :: rest, i, longest, current =>
    if g = 0 then
      let cur' := if current.2 = 0 then (i, 1) else (current.1, current.2 + 1)
      let lon' := if longest.2 < cur'.2 then cur' else longest
      lzrAux rest (i + 1) lon' cur'
    else lzrAux rest (i + 1) longest (0, 0)

/-- Longest zero-segment span of an IPv6 segment list. -/
def longestZeroRun (l : List (Fin 65536)) : Nat × Nat := lzrAux l 0 (0, 0) (0, 0)

/-- Hex groups joined by `':'` (the `fmt_subslice` helper of the Rust
`Ipv6Addr` display). -/
def groupsStr : List (Fin 65536) → Str
  | [] => []
  | [g] => hexChars g.val
  | g :: g' :: gs => hexChars g.val ++ ':' :: groupsStr (g' :: gs)

/-- Rust `Display` for `Ipv6Addr`: an IPv4-mapped address prints as
`"::ffff:a.b.c.d"`; otherwise the longest zero run (if of length at least
two) is elided as `"::"` between the remaining hex groups. -/
def dispIpv6 (a : Ipv6) : Str :=
  let segs := a.val
  match segs with
  | [s0, s1, s2, s3, s4, s5, s6, s7] =>
    if s0 = 0 ∧ s1 = 0 ∧ s2 = 0 ∧ s3 = 0 ∧ s4 = 0 ∧ s5 = (65535 : Fin 65536) then
      ':' :: ':' :: 'f' :: 'f' :: 'f' :: 'f' :: ':' ::
        dispIpv4 ⟨[⟨s6.val / 256, by omega⟩, ⟨s6.val % 256, by omega⟩,
                   ⟨s7.val / 256, by omega⟩, ⟨s7.val % 256, by omega⟩], rfl⟩
    else
      let z := longestZeroRun segs
      if 1 < z.2 then
        groupsStr (segs.take z.1) ++ ':' :: ':' :: groupsStr (segs.drop (z.1 + z.2))
      else groupsStr segs
  | _ => []

/-- Rust `IpAddr`. -/
inductive IpAddr : Type
  | V4 (q : Ipv4)
  | V6 (a : Ipv6)
deriving DecidableEq

/-- Rust `FromStr` for `IpAddr` (`Parser::read_ip_addr` with the final
end-of-input check): try IPv4 first; if the IPv4 reader succeeds but does
not consume the whole string the parse fails without falling back. -/
def parseIpAddr (s : Str) : Option IpAddr :=
  match readIpv4 s with
  | some (q, rest) => if rest = [] then some (.V4 q) else none
  | none =>
    match readIpv6 s with
    | some (segs, rest) =>
      if rest = [] then
        if h : segs.length = 8 then some (.V6 ⟨segs, h⟩) else none
      else none
    | none => none

/-- Rust `Display` for `IpAddr`. -/
def dispIpAddr : IpAddr → Str
  | .V4 q => dispIpv4 q
  | .V6 a => dispIpv6 a

/-- `HostsManager::is_valid_ip` from `src/hosts.rs`: does the string parse
as an IP address? -/
def is_valid_ip (s : Str) : Bool := (parseIpAddr s).isSome

/-! ## List helper lemmas -/

theorem takeWhile_append_all {α : Type} {p : α → Bool} :
    ∀ {xs ys : List α}, (∀ x ∈ xs, p x = true) →
      (xs ++ ys).takeWhile p = xs ++ ys.takeWhile p := by
  intro xs
  induction xs with
  | nil => intro ys _; rfl
  | cons a l ih =>
    intro ys h
    have ha : p a = true := h a (List.mem_cons_self a l)
    simp only [List.cons_append, List.takeWhile_cons, ha, if_true]
    rw [ih fun x hx => h x (List.mem_cons_of_mem a hx)]

theorem dropWhile_append_all {α : Type} {p : α → Bool} :
    ∀ {xs ys : List α}, (∀ x ∈ xs, p x = true) →
      (xs ++ ys).dropWhile p = ys.dropWhile p := by
  intro xs
  induction xs with
  | nil => intro ys _; rfl
  | cons a l ih =>
    intro ys h
    have ha : p a = true := h a (List.mem_cons_self a l)
    simp only [List.cons_append, List.dropWhile_cons, ha, if_true]
    exact ih fun x hx => h x (List.mem_cons_of_mem a hx)

theorem takeWhile_eq_nil_of_head {α : Type} {p : α → Bool} {ys : List α}
    (h : ∀ c, ys.head? = some c → p c = false) : ys.takeWhile p = [] := by
  cases ys with
  | nil => rfl
  | cons a l => simp [List.takeWhile_cons, h a rfl]

theorem dropWhile_eq_self_of_head {α : Type} {p : α → Bool} {ys : List α}
    (h : ∀ c, ys.head? = some c → p c = false) : ys.dropWhile p = ys := by
  cases ys with
  | nil => rfl
  | cons a l => simp [List.dropWhile_cons, h a rfl]

theorem drop_eq_cons_parts {α : Type} {L : List α} {i : Nat} {g : α} {rest : List α}
    (h : L.drop i = g :: rest) : L[i]? = some g ∧ L.drop (i + 1) = rest := by
  constructor
  · have h0 : (L.drop i)[0]? = L[i + 0]? := List.getElem?_drop L i 0
    rw [h] at h0
    simpa using h0.symm
  · have h1 : L.drop (i + 1) = (L.drop i).drop 1 := by rw [List.drop_drop, Nat.add_comm]
    rw [h1, h]; rfl

/-! ## Digit and numeral lemmas -/

theorem toDigit_digitChar {b d : Nat} (hd : d < 16) (hb : d < b) :
    toDigit? b (digitChar d) = some d := by
  have h : toDigit? b (digitChar d) = if d < b then some d else none := by
    interval_cases d <;> rfl
  rw [h, if_pos hb]

theorem isRadixDigit_digitChar {b d : Nat} (hd : d < 16) (hb : d < b) :
    isRadixDigit b (digitChar d) = true := by
  simp [isRadixDigit, toDigit_digitChar hd hb]

theorem mem_digitsF {b : Nat} (hb2 : 2 ≤ b) (hb : b ≤ 16) :
    ∀ {fuel n : Nat} {c : Char}, c ∈ digitsF b fuel n → ∃ d, d < 16 ∧ d < b ∧ c = digitChar d
  | 0, _, _, h => by simp [digitsF] at h
  | fuel + 1, n, c, h => by
    by_cases hn : n < b
    · simp only [digitsF, if_pos hn, List.mem_singleton] at h
      exact ⟨n, by omega, hn, h⟩
    · simp only [digitsF, if_neg hn, List.mem_append, List.mem_singleton] at h
      rcases h with h | h
      · exact mem_digitsF hb2 hb h
      · have hmod : n % b < b := Nat.mod_lt _ (by omega)
        exact ⟨n % b, by omega, hmod, h⟩

theorem digitsF_ne_nil {b fuel n : Nat} (h : n < fuel) : digitsF b fuel n ≠ [] := by
  cases fuel with
  | zero => omega
  | succ f =>
    by_cases hn : n < b <;> simp [digitsF, hn]

/-- Value of a digit string under the fold used by `readNumberF`. -/
def valFold (b : Nat) (a : Nat) (ds : Str) : Nat :=
  ds.foldl (fun acc c => acc * b + ((toDigit? b c).getD 0)) a

theorem valFold_digitsF {b : Nat} (hb2 : 2 ≤ b) (hb16 : b ≤ 16) :
    ∀ {fuel n : Nat}, n < fuel → valFold b 0 (digitsF b fuel n) = n
  | 0, _, h => by omega
  | fuel + 1, n, h => by
    by_cases hn : n < b
    · have hd : toDigit? b (digitChar n) = some n := toDigit_digitChar (by omega) hn
      simp only [digitsF, if_pos hn, valFold, List.foldl_cons, List.foldl_nil, hd,
        Option.getD_some]
      omega
    · have hb0 : 0 < b := by omega
      have hdivlt : n / b < n := Nat.div_lt_self (by omega) (by omega)
      have hdiv : n / b < fuel := by omega
      have ih := valFold_digitsF hb2 hb16 hdiv
      have hmod : n % b < b := Nat.mod_lt _ hb0
      have hd : toDigit? b (digitChar (n % b)) = some (n % b) := toDigit_digitChar (by omega) hmod
      have hdm : n / b * b + n % b = n := by
        have := Nat.div_add_mod n b
        have hcomm : b * (n / b) = n / b * b := Nat.mul_comm _ _
        omega
      simp only [digitsF, if_neg hn]
      unfold valFold at ih ⊢
      rw [List.foldl_append, ih]
      simp only [List.foldl_cons, List.foldl_nil, hd, Option.getD_some]
      omega

theorem digitsF_length_le {b : Nat} (hb2 : 2 ≤ b) :
    ∀ {fuel n k : Nat}, n < fuel → n < b ^ k → 1 ≤ k → (digitsF b fuel n).length ≤ k
  | 0, _, _, h, _, _ => by omega
  | fuel + 1, n, k, h, hk, hk1 => by
    by_cases hn : n < b
    · simp [digitsF, if_pos hn, hk1]
    · have hdiv : n / b < fuel := by
        have h1 : n / b < n := Nat.div_lt_self (by omega) (by omega)
        omega
      have hk2 : 2 ≤ k := by
        by_contra h2
        have hk1' : k = 1 := by omega
        subst hk1'
        simp only [pow_one] at hk
        omega
      have hpow : b ^ (k - 1) * b = b ^ k := by
        rw [← Nat.pow_succ]
        congr 1
        omega
      have hdivk : n / b < b ^ (k - 1) := by
        rw [Nat.div_lt_iff_lt_mul (by omega : 0 < b), hpow]
        exact hk
      have ih := digitsF_length_le hb2 hdiv hdivk (by omega : 1 ≤ k - 1)
      simp only [digitsF, if_neg hn, List.length_append, List.length_cons, List.length_nil]
      omega

theorem digitChar_eq_zero_iff {d : Nat} (hd : d < 16) : digitChar d = '0' ↔ d = 0 := by
  interval_cases d <;> simp [digitChar]

theorem digitsF_head_ne_zero {b : Nat} (hb2 : 2 ≤ b) (hb16 : b ≤ 16) :
    ∀ {fuel n : Nat}, n < fuel → b ≤ n → (digitsF b fuel n).head? ≠ some '0'
  | 0, _, h, _ => by omega
  | fuel + 1, n, h, hbn => by
    have hn : ¬ n < b := by omega
    have hdivlt : n / b < n := Nat.div_lt_self (by omega) (by omega)
    have hfuel : n / b < fuel := by omega
    simp only [digitsF, if_neg hn]
    rw [List.head?_append_of_ne_nil _ (digitsF_ne_nil hfuel)]
    by_cases hdb : n / b < b
    · cases fuel with
      | zero => omega
      | succ f =>
        have h1 : 1 ≤ n / b := (Nat.one_le_div_iff (by omega : 0 < b)).mpr hbn
        have hne : digitChar (n / b) ≠ '0' := by
          intro hcon
          have := (digitChar_eq_zero_iff (by omega : n / b < 16)).mp hcon
          omega
        simp [digitsF, if_pos hdb, hne]
    · exact digitsF_head_ne_zero hb2 hb16 hfuel (by omega)

/-! ## Behaviour of `readNumberF` on canonical numerals -/

theorem readNumberF_exact {b maxD maxV : Nat} (hb2 : 2 ≤ b) (hb16 : b ≤ 16)
    {n : Nat} (hn : n ≤ maxV) (hnd : n < b ^ maxD) (hmd : 1 ≤ maxD)
    {rest : Str} (hrest : ∀ c, rest.head? = some c → isRadixDigit b c = false)
    (azp : Bool) :
    readNumberF b maxD maxV azp (digitsF b (n + 1) n ++ rest) =
      some (⟨n, by omega⟩, rest) := by
  have hall : ∀ x ∈ digitsF b (n + 1) n, isRadixDigit b x = true := by
    intro x hx
    obtain ⟨d, hd16, hdb, rfl⟩ := mem_digitsF hb2 hb16 hx
    exact isRadixDigit_digitChar hd16 hdb
  have htake : (digitsF b (n + 1) n ++ rest).takeWhile (isRadixDigit b) =
      digitsF b (n + 1) n := by
    rw [takeWhile_append_all hall, takeWhile_eq_nil_of_head hrest, List.append_nil]
  have hdrop : (digitsF b (n + 1) n ++ rest).dropWhile (isRadixDigit b) = rest := by
    rw [dropWhile_append_all hall, dropWhile_eq_self_of_head hrest]
  have hne : digitsF b (n + 1) n ≠ [] := digitsF_ne_nil (by omega)
  have hlen : (digitsF b (n + 1) n).length ≤ maxD :=
    digitsF_length_le hb2 (by omega) hnd hmd
  have hval : valFold b 0 (digitsF b (n + 1) n) = n := valFold_digitsF hb2 hb16 (by omega)
  have hzp : ¬ (azp = false ∧ (digitsF b (n + 1) n).head? = some '0' ∧
      1 < (digitsF b (n + 1) n).length) := by
    rintro ⟨-, hhead, hlong⟩
    by_cases hnb : n < b
    · simp [digitsF, if_pos hnb] at hlong
    · exact digitsF_head_ne_zero hb2 hb16 (by omega) (by omega) hhead
  simp only [readNumberF, htake, hdrop]
  rw [if_neg (by simp [List.isEmpty_iff, hne]), if_neg (by omega)]
  unfold valFold at hval
  rw [dif_neg (by omega), if_neg hzp]
  congr 1
  ext
  · simp [hval]
  · rfl

theorem readNumberF_dec {n : Nat} (hn : n ≤ 255) {rest : Str}
    (hrest : ∀ c, rest.head? = some c → isRadixDigit 10 c = false) :
    readNumberF 10 3 255 false (decChars n ++ rest) = some (⟨n, by omega⟩, rest) := by
  unfold decChars
  exact readNumberF_exact (by omega) (by omega) hn (by norm_num; omega) (by omega) hrest false

theorem readNumberF_hex {n : Nat} (hn : n ≤ 65535) {rest : Str}
    (hrest : ∀ c, rest.head? = some c → isRadixDigit 16 c = false) :
    readNumberF 16 4 65535 true (hexChars n ++ rest) = some (⟨n, by omega⟩, rest) := by
  unfold hexChars
  exact readNumberF_exact (by omega) (by omega) hn (by norm_num; omega) (by omega) hrest true

theorem readNumberF_none_of_head {b maxD maxV : Nat} {azp : Bool} {s : Str}
    (h : ∀ c, s.head? = some c → isRadixDigit b c = false) :
    readNumberF b maxD maxV azp s = none := by
  simp only [readNumberF, takeWhile_eq_nil_of_head h]
  rfl

theorem readNumberF_rest {b maxD maxV : Nat} {azp : Bool} {s : Str}
    {v : Fin (maxV + 1)} {rest : Str}
    (h : readNumberF b maxD maxV azp s = some (v, rest)) :
    rest = s.dropWhile (isRadixDigit b) := by
  simp only [readNumberF] at h
  split at h
  · exact absurd h (by simp)
  · split at h
    · exact absurd h (by simp)
    · split at h
      · exact absurd h (by simp)
      · split at h
        · exact absurd h (by simp)
        · simp only [Option.some.injEq, Prod.mk.injEq] at h
          exact h.2.symm

/-! ## Behaviour of `readIpv4` -/

theorem readIpv4_no_dot {s : Str} (h : ('.' : Char) ∉ s) : readIpv4 s = none := by
  unfold readIpv4
  cases h1 : readNumberF 10 3 255 false s with
  | none => rfl
  | some p =>
    obtain ⟨a, s1⟩ := p
    have hs1 : s1 = s.dropWhile (isRadixDigit 10) := readNumberF_rest h1
    have h2 : readGivenChar '.' s1 = none := by
      cases hc : s1 with
      | nil => rfl
      | cons c t =>
        have hcs : c ∈ s := by
          apply (List.dropWhile_suffix (isRadixDigit 10)).subset
          rw [← hs1, hc]
          exact List.mem_cons_self c t
        have : c ≠ '.' := fun hcon => h (hcon ▸ hcs)
        simp [readGivenChar, this]
    simp [h2]

theorem readIpv4_colon_head {s : Str} : readIpv4 (':' :: s) = none := by
  have h1 : readNumberF 10 3 255 false (':' :: s) = none := by
    apply readNumberF_none_of_head
    intro c hc
    simp only [List.head?_cons, Option.some.injEq] at hc
    subst hc
    decide
  simp [readIpv4, h1]

theorem readIpv4_disp (q : Ipv4) {rest : Str}
    (hrest : ∀ c, rest.head? = some c → isRadixDigit 10 c = false) :
    readIpv4 (dispIpv4 q ++ rest) = some (q, rest) := by
  obtain ⟨l, hl⟩ := q
  rcases l with - | ⟨a, l⟩
  · simp at hl
  rcases l with - | ⟨b, l⟩
  · simp at hl
  rcases l with - | ⟨c, l⟩
  · simp at hl
  rcases l with - | ⟨d, l⟩
  · simp at hl
  rcases l with - | ⟨e, l⟩
  swap
  · simp at hl
  have hdotd : ∀ (u : Str) (ch : Char), (('.' : Char) :: u).head? = some ch →
      isRadixDigit 10 ch = false := by
    intro u ch hch
    simp only [List.head?_cons, Option.some.injEq] at hch
    subst hch
    decide
  have hdisp : dispIpv4 ⟨[a, b, c, d], hl⟩ =
      decChars a.val ++ '.' :: decChars b.val ++ '.' :: decChars c.val ++
        '.' :: decChars d.val := rfl
  rw [hdisp]
  have ha := a.isLt
  have hb := b.isLt
  have hc := c.isLt
  have hd := d.isLt
  simp only [readIpv4, List.append_assoc, List.cons_append]
  rw [readNumberF_dec (by omega) (hdotd _)]
  simp only [Option.bind_eq_bind, Option.some_bind, readGivenChar, if_pos rfl, if_true]
  rw [readNumberF_dec (by omega) (hdotd _)]
  simp only [Option.bind_eq_bind, Option.some_bind, readGivenChar, if_pos rfl, if_true]
  rw [readNumberF_dec (by omega) (hdotd _)]
  simp only [Option.bind_eq_bind, Option.some_bind, readGivenChar, if_pos rfl, if_true]
  rw [readNumberF_dec (by omega) hrest]
  simp only [Option.bind_eq_bind, Option.some_bind, Option.some.injEq, Prod.mk.injEq]

/-! ## Behaviour of `readGroupsAux` on the displayed group strings -/

/-- The tail of a group string: each remaining group with its leading
separator. -/
def midJoin (gs : List (Fin 65536)) : Str :=
  gs.flatMap (fun g => ':' :: hexChars g.val)

theorem groupsStr_cons (g : Fin 65536) (gs : List (Fin 65536)) :
    groupsStr (g :: gs) = hexChars g.val ++ midJoin gs := by
  induction gs generalizing g with
  | nil => simp [groupsStr, midJoin]
  | cons g' gs' ih =>
    simp only [groupsStr, midJoin, List.flatMap_cons] at *
    rw [ih g']
    simp [midJoin]

theorem mem_hexChars {c : Char} {n : Nat} (h : c ∈ hexChars n) :
    isRadixDigit 16 c = true := by
  obtain ⟨d, hd16, hdb, rfl⟩ := mem_digitsF (by omega) (by omega) h
  exact isRadixDigit_digitChar hd16 hdb

theorem mem_midJoin {c : Char} {gs : List (Fin 65536)} (h : c ∈ midJoin gs) :
    isRadixDigit 16 c = true ∨ c = ':' := by
  induction gs with
  | nil => simp [midJoin] at h
  | cons g gs' ih =>
    simp only [midJoin, List.flatMap_cons, List.cons_append, List.mem_cons,
      List.mem_append] at h
    rcases h with h | h | h
    · exact Or.inr h
    · exact Or.inl (mem_hexChars h)
    · exact ih (by simpa [midJoin] using h)

theorem mem_groupsStr {c : Char} {gs : List (Fin 65536)} (h : c ∈ groupsStr gs) :
    isRadixDigit 16 c = true ∨ c = ':' := by
  cases gs with
  | nil => simp [groupsStr] at h
  | cons g gs' =>
    rw [groupsStr_cons] at h
    rcases List.mem_append.mp h with h | h
    · exact Or.inl (mem_hexChars h)
    · exact mem_midJoin h

theorem isRadixDigit_toNat_range {b : Nat} {c : Char} (h : isRadixDigit b c = true) :
    (48 ≤ c.toNat ∧ c.toNat ≤ 57) ∨ (97 ≤ c.toNat ∧ c.toNat ≤ 122) ∨
      (65 ≤ c.toNat ∧ c.toNat ≤ 90) := by
  simp only [isRadixDigit, toDigit?, Option.isSome] at h
  split_ifs at h with h1 h2 h3 <;> first
    | exact Or.inl h1
    | exact Or.inr (Or.inl h2)
    | exact Or.inr (Or.inr h3)
    | simp at h

theorem isRadixDigit_false_of_notalnum {b : Nat} {c : Char}
    (h1 : c.toNat < 48 ∨ (57 < c.toNat ∧ c.toNat < 65) ∨
      (90 < c.toNat ∧ c.toNat < 97) ∨ 122 < c.toNat) :
    isRadixDigit b c = false := by
  simp only [isRadixDigit, toDigit?, Option.isSome]
  split_ifs with hA hB hC
  · omega
  · omega
  · omega
  · rfl

theorem isRadixDigit_colon (b : Nat) : isRadixDigit b ':' = false :=
  isRadixDigit_false_of_notalnum (by right; left; refine ⟨by decide, by decide⟩)

theorem isRadixDigit_dot (b : Nat) : isRadixDigit b '.' = false :=
  isRadixDigit_false_of_notalnum (by left; decide)

theorem hexDigit_ne_dot {c : Char} (h : isRadixDigit 16 c = true) : c ≠ '.' := by
  intro hcon
  subst hcon
  rw [isRadixDigit_dot] at h
  simp at h

theorem dot_not_mem_groupsStr {gs : List (Fin 65536)} :
    ('.' : Char) ∉ groupsStr gs := by
  intro h
  rcases mem_groupsStr h with h | h
  · exact hexDigit_ne_dot h rfl
  · simp at h

theorem dot_not_mem_midJoin {gs : List (Fin 65536)} :
    ('.' : Char) ∉ midJoin gs := by
  intro h
  rcases mem_midJoin h with h | h
  · exact hexDigit_ne_dot h rfl
  · simp at h

theorem readNumberF_nil {b maxD maxV : Nat} {azp : Bool} :
    readNumberF b maxD maxV azp [] = none := rfl

theorem readIpv4_nil : readIpv4 [] = none := rfl

theorem readNumberF_colon_head {b maxD maxV : Nat} {azp : Bool} {t : Str} :
    readNumberF b maxD maxV azp (':' :: t) = none := by
  apply readNumberF_none_of_head
  intro c hc
  simp only [List.head?_cons, Option.some.injEq] at hc
  subst hc
  exact isRadixDigit_colon b

/-- `readGroupsAux` reads no group from an empty string or from a string
that starts with the `"::"` separator. -/
theorem readGroupsAux_stop (fuel : Nat) (first : Bool) {tail : Str}
    (h : tail = [] ∨ ∃ t, tail = ':' :: ':' :: t) :
    readGroupsAux fuel first tail = ([], false, tail) := by
  cases fuel with
  | zero => rfl
  | succ f =>
    have hiv : readSep ':' first readIpv4 tail = none := by
      rcases h with rfl | ⟨t, rfl⟩
      · cases first <;> simp [readSep, readIpv4_nil]
      · cases first <;> simp [readSep, readIpv4_colon_head]
    have hnum : readSep ':' first (readNumberF 16 4 65535 true) tail = none := by
      rcases h with rfl | ⟨t, rfl⟩
      · cases first <;> simp [readSep, readNumberF_nil]
      · cases first <;> simp [readSep, readNumberF_colon_head]
    simp only [readGroupsAux]
    rw [hnum]
    rcases Nat.lt_or_ge f 1 with h1 | h1
    · rw [if_neg (by omega)]
    · rw [if_pos h1, hiv]

theorem head_midJoin_tail {gs : List (Fin 65536)} {tail : Str}
    (htail : tail = [] ∨ ∃ t, tail = ':' :: ':' :: t) :
    ∀ c, (midJoin gs ++ tail).head? = some c → isRadixDigit 16 c = false := by
  intro c hc
  cases gs with
  | nil =>
    simp only [midJoin, List.flatMap_nil, List.nil_append] at hc
    rcases htail with rfl | ⟨t, rfl⟩
    · simp at hc
    · simp only [List.head?_cons, Option.some.injEq] at hc
      subst hc
      exact isRadixDigit_colon 16
  | cons g gs' =>
    simp only [midJoin, List.flatMap_cons, List.cons_append, List.head?_cons,
      Option.some.injEq] at hc
    subst hc
    exact isRadixDigit_colon 16

/-- `readGroupsAux` reads exactly the groups of a separator-led group
string, leaving an empty or `"::"`-led tail. -/
theorem readGroupsAux_mid :
    ∀ (gs : List (Fin 65536)) (fuel : Nat) (tail : Str),
      gs.length ≤ fuel →
      ('.' : Char) ∉ midJoin gs ++ tail →
      (tail = [] ∨ ∃ t, tail = ':' :: ':' :: t) →
      readGroupsAux fuel false (midJoin gs ++ tail) = (gs, false, tail)
  | [], fuel, tail, _, _, htail => by
    simpa [midJoin] using readGroupsAux_stop fuel false htail
  | g :: gs', fuel, tail, hlen, hdot, htail => by
    cases fuel with
    | zero => simp at hlen
    | succ f =>
      have hstr : midJoin (g :: gs') ++ tail =
          ':' :: (hexChars g.val ++ (midJoin gs' ++ tail)) := by
        simp [midJoin]
      rw [hstr]
      have hdot' : ('.' : Char) ∉ hexChars g.val ++ (midJoin gs' ++ tail) := by
        intro hmem
        apply hdot
        rw [hstr]
        exact List.mem_cons_of_mem _ hmem
      have hiv : readSep ':' false readIpv4
          (':' :: (hexChars g.val ++ (midJoin gs' ++ tail))) = none := by
        simp only [readSep, Bool.false_eq_true, if_false, if_pos rfl, if_true]
        exact readIpv4_no_dot hdot'
      have hg := g.isLt
      have hnum : readNumberF 16 4 65535 true (hexChars g.val ++ (midJoin gs' ++ tail)) =
          some (⟨g.val, by omega⟩, midJoin gs' ++ tail) :=
        readNumberF_hex (by omega) (head_midJoin_tail htail)
      have hrec : readGroupsAux f false (midJoin gs' ++ tail) = (gs', false, tail) := by
        apply readGroupsAux_mid gs' f tail (by simpa using hlen)
        · intro hmem
          apply hdot
          rw [hstr]
          refine List.mem_cons_of_mem _ (List.mem_append_right _ hmem)
        · exact htail
      simp only [readGroupsAux]
      have hselect : (if 1 ≤ f then
          readSep ':' false readIpv4 (':' :: (hexChars g.val ++ (midJoin gs' ++ tail)))
          else none) = none := by
        split
        · exact hiv
        · rfl
      rw [hselect]
      have hsep : readSep ':' false (readNumberF 16 4 65535 true)
          (':' :: (hexChars g.val ++ (midJoin gs' ++ tail))) =
          some (⟨g.val, by omega⟩, midJoin gs' ++ tail) := by
        simp only [readSep, Bool.false_eq_true, if_false, if_pos rfl, if_true]
        exact hnum
      rw [hsep]
      simp only [hrec]

/-- `readGroupsAux` with `first = true` reads exactly the groups of a
displayed group string, leaving an empty or `"::"`-led tail. -/
theorem readGroupsAux_start (gs : List (Fin 65536)) (fuel : Nat) (tail : Str)
    (hlen : gs.length ≤ fuel)
    (hdot : ('.' : Char) ∉ groupsStr gs ++ tail)
    (htail : tail = [] ∨ ∃ t, tail = ':' :: ':' :: t) :
    readGroupsAux fuel true (groupsStr gs ++ tail) = (gs, false, tail) := by
  cases gs with
  | nil => simpa [groupsStr] using readGroupsAux_stop fuel true htail
  | cons g gs' =>
    cases fuel with
    | zero => simp at hlen
    | succ f =>
      have hstr : groupsStr (g :: gs') ++ tail =
          hexChars g.val ++ (midJoin gs' ++ tail) := by
        rw [groupsStr_cons]
        simp
      rw [hstr]
      have hdot' : ('.' : Char) ∉ hexChars g.val ++ (midJoin gs' ++ tail) := by
        rw [← hstr]
        exact hdot
      have hg := g.isLt
      have hnum : readNumberF 16 4 65535 true (hexChars g.val ++ (midJoin gs' ++ tail)) =
          some (⟨g.val, by omega⟩, midJoin gs' ++ tail) :=
        readNumberF_hex (by omega) (head_midJoin_tail htail)
      have hrec : readGroupsAux f false (midJoin gs' ++ tail) = (gs', false, tail) := by
        apply readGroupsAux_mid gs' f tail (by simpa using hlen)
        · intro hmem
          exact hdot' (List.mem_append_right _ hmem)
        · exact htail
      simp only [readGroupsAux]
      have hselect : (if 1 ≤ f then
          readSep ':' true readIpv4 (hexChars g.val ++ (midJoin gs' ++ tail))
          else none) = none := by
        split
        · simp only [readSep, if_true]
          exact readIpv4_no_dot hdot'
        · rfl
      rw [hselect]
      have hsep : readSep ':' true (readNumberF 16 4 65535 true)
          (hexChars g.val ++ (midJoin gs' ++ tail)) =
          some (⟨g.val, by omega⟩, midJoin gs' ++ tail) := by
        simp only [readSep, if_true]
        exact hnum
      rw [hsep]
      simp only [hrec]

/-! ## Round trip for the IPv6 reader on displayed addresses -/

theorem readIpv6_uncompressed (segs : List (Fin 65536)) (h8 : segs.length = 8) :
    readIpv6 (groupsStr segs) = some (segs, []) := by
  have h := readGroupsAux_start segs 8 [] (by omega)
    (by simpa using dot_not_mem_groupsStr) (Or.inl rfl)
  rw [List.append_nil] at h
  simp only [readIpv6, h, h8, if_pos rfl, if_true]

theorem readIpv6_compressed (before after : List (Fin 65536))
    (hk : before.length + after.length ≤ 6) :
    readIpv6 (groupsStr before ++ ':' :: ':' :: groupsStr after) =
      some (before ++
        List.replicate (8 - before.length - after.length) 0 ++ after, []) := by
  have hdot : ('.' : Char) ∉ groupsStr before ++ ':' :: ':' :: groupsStr after := by
    intro hmem
    rcases List.mem_append.mp hmem with h | h
    · exact dot_not_mem_groupsStr h
    · simp only [List.mem_cons] at h
      rcases h with h | h | h
      · exact absurd h (by decide)
      · exact absurd h (by decide)
      · exact dot_not_mem_groupsStr h
  have hhead := readGroupsAux_start before 8 (':' :: ':' :: groupsStr after)
    (by omega) hdot (Or.inr ⟨groupsStr after, rfl⟩)
  have htail := readGroupsAux_start after (8 - (before.length + 1)) [] (by omega)
    (by simpa using dot_not_mem_groupsStr) (Or.inl rfl)
  rw [List.append_nil] at htail
  have hne8 : ¬ before.length = 8 := by omega
  simp only [readIpv6, hhead, hne8, if_false, Bool.false_eq_true, htail]

/-! ## The zero span selected by the IPv6 display is a span of zeros -/

/-- `[st, st + len)` is a within-bounds all-zero index range of `L`. -/
def ZeroSpan (L : List (Fin 65536)) (st len : Nat) : Prop :=
  st + len ≤ L.length ∧ ∀ j, j < len → L[st + j]? = some 0

theorem lzrAux_span :
    ∀ (suffix : List (Fin 65536)) (i : Nat) (lon cur : Nat × Nat)
      (L : List (Fin 65536)),
      L.drop i = suffix →
      ZeroSpan L lon.1 lon.2 →
      (cur.2 = 0 ∨ (ZeroSpan L cur.1 cur.2 ∧ cur.1 + cur.2 = i)) →
      ZeroSpan L (lzrAux suffix i lon cur).1 (lzrAux suffix i lon cur).2
  | [], _, _, _, _, _, hlon, _ => hlon
  | g :: rest, i, lon, cur, L, hdrop, hlon, hcur => by
    obtain ⟨hget, hdrop'⟩ := drop_eq_cons_parts hdrop
    have hilen : i < L.length := by
      by_contra hcon
      rw [List.getElem?_eq_none (by omega)] at hget
      simp at hget
    by_cases hg : g = 0
    · have hcur' : ZeroSpan L (if cur.2 = 0 then (i, 1) else (cur.1, cur.2 + 1)).1
          (if cur.2 = 0 then (i, 1) else (cur.1, cur.2 + 1)).2 ∧
          (if cur.2 = 0 then (i, 1) else (cur.1, cur.2 + 1)).1 +
            (if cur.2 = 0 then (i, 1) else (cur.1, cur.2 + 1)).2 = i + 1 := by
        by_cases hc0 : cur.2 = 0
        · rw [if_pos hc0]
          refine ⟨⟨by omega, ?_⟩, by omega⟩
          intro j hj
          have hj0 : j = 0 := by omega
          subst hj0
          rw [Nat.add_zero, hget, hg]
        · rw [if_neg hc0]
          rcases hcur with hcon | ⟨⟨hb, hz⟩, hend⟩
          · exact absurd hcon hc0
          refine ⟨⟨by omega, ?_⟩, by omega⟩
          intro j hj
          rcases Nat.lt_or_ge j cur.2 with hj' | hj'
          · exact hz j hj'
          · have hj2 : j = cur.2 := by omega
            subst hj2
            rw [hend, hget, hg]
      simp only [lzrAux, if_pos hg]
      apply lzrAux_span rest (i + 1) _ _ L hdrop'
      · by_cases hcmp : lon.2 < (if cur.2 = 0 then (i, 1) else (cur.1, cur.2 + 1)).2
        · rw [if_pos hcmp]
          exact hcur'.1
        · rw [if_neg hcmp]
          exact hlon
      · exact Or.inr hcur'
    · simp only [lzrAux, if_neg hg]
      exact lzrAux_span rest (i + 1) lon (0, 0) L hdrop' hlon (Or.inl rfl)

theorem longestZeroRun_span (L : List (Fin 65536)) :
    ZeroSpan L (longestZeroRun L).1 (longestZeroRun L).2 := by
  apply lzrAux_span L 0 (0, 0) (0, 0) L rfl
  · exact ⟨by omega, by omega⟩
  · exact Or.inl rfl

theorem span_decomp {L : List (Fin 65536)} {st len : Nat} (h : ZeroSpan L st len) :
    L = L.take st ++ List.replicate len 0 ++ L.drop (st + len) := by
  obtain ⟨hb, hz⟩ := h
  have htake : (L.drop st).take len = List.replicate len (0 : Fin 65536) := by
    rw [List.eq_replicate_iff]
    refine ⟨by rw [List.length_take, List.length_drop]; omega, ?_⟩
    intro x hx
    obtain ⟨j, hj, hjx⟩ := List.getElem_of_mem hx
    have hjlen : j < len := by
      have h2 := hj
      rw [List.length_take, List.length_drop] at h2
      omega
    have hjx' : ((L.drop st).take len)[j]? = some x := by
      rw [List.getElem?_eq_getElem hj, hjx]
    rw [List.getElem?_take_of_lt hjlen, List.getElem?_drop, hz j hjlen] at hjx'
    exact (Option.some_inj.mp hjx').symm
  calc L = L.take st ++ L.drop st := (List.take_append_drop st L).symm
    _ = L.take st ++ ((L.drop st).take len ++ (L.drop st).drop len) := by
        rw [List.take_append_drop, List.take_append_drop]
        exact (List.take_append_drop st L).symm
    _ = L.take st ++ List.replicate len 0 ++ L.drop (st + len) := by
        rw [htake, List.drop_drop, List.append_assoc]

/-! ## Round trip for displayed IP addresses -/

theorem length_eight_form {α : Type} {l : List α} (h : l.length = 8) :
    ∃ g0 g1 g2 g3 g4 g5 g6 g7, l = [g0, g1, g2, g3, g4, g5, g6, g7] := by
  rcases l with - | ⟨g0, l⟩
  · simp at h
  rcases l with - | ⟨g1, l⟩
  · simp at h
  rcases l with - | ⟨g2, l⟩
  · simp at h
  rcases l with - | ⟨g3, l⟩
  · simp at h
  rcases l with - | ⟨g4, l⟩
  · simp at h
  rcases l with - | ⟨g5, l⟩
  · simp at h
  rcases l with - | ⟨g6, l⟩
  · simp at h
  rcases l with - | ⟨g7, l⟩
  · simp at h
  rcases l with - | ⟨g8, l⟩
  · exact ⟨g0, g1, g2, g3, g4, g5, g6, g7, rfl⟩
  · simp at h

theorem readIpv4_f_head {t : Str} : readIpv4 ('f' :: t) = none := by
  have h1 : readNumberF 10 3 255 false ('f' :: t) = none := by
    apply readNumberF_none_of_head
    intro c hc
    simp only [List.head?_cons, Option.some.injEq] at hc
    subst hc
    decide
  simp [readIpv4, h1]

theorem readGroupsAux_v4tail (f : Nat) (hf : 1 ≤ f) (a b c d : Fin 256) :
    readGroupsAux (f + 1) false (':' :: dispIpv4 ⟨[a, b, c, d], rfl⟩) =
      ([group16 a b, group16 c d], true, []) := by
  have hdispq : readIpv4 (dispIpv4 ⟨[a, b, c, d], rfl⟩ ++ []) =
      some (⟨[a, b, c, d], rfl⟩, []) := readIpv4_disp _ (by simp)
  rw [List.append_nil] at hdispq
  have hiv : readSep ':' false readIpv4 (':' :: dispIpv4 ⟨[a, b, c, d], rfl⟩) =
      some (⟨[a, b, c, d], rfl⟩, []) := by
    simp only [readSep, Bool.false_eq_true, if_false, if_pos rfl, if_true]
    exact hdispq
  simp only [readGroupsAux]
  rw [if_pos hf, hiv]

/-- One-step unfolding of `readGroupsAux` at a successor fuel. -/
theorem readGroupsAux_succ_eq (fuel : Nat) (first : Bool) (s : Str) :
    readGroupsAux (fuel + 1) first s =
      match (if 1 ≤ fuel then readSep ':' first readIpv4 s else none) with
      | some (q, rest) =>
        match q.val, q.property with
        | [a, b, c, d], _ => ([group16 a b, group16 c d], true, rest)
      | none =>
        match readSep ':' first (readNumberF 16 4 65535 true) s with
        | some (g, rest) =>
          (g :: (readGroupsAux fuel false rest).1, (readGroupsAux fuel false rest).2.1,
            (readGroupsAux fuel false rest).2.2)
        | none => ([], false, s) := rfl

theorem readGroupsAux_ffff (f : Nat) (hf : 2 ≤ f) (a b c d : Fin 256) :
    readGroupsAux (f + 1) true
        ('f' :: 'f' :: 'f' :: 'f' :: ':' :: dispIpv4 ⟨[a, b, c, d], rfl⟩) =
      ([⟨65535, by omega⟩, group16 a b, group16 c d], true, []) := by
  have hstr : ('f' :: 'f' :: 'f' :: 'f' :: ':' :: dispIpv4 ⟨[a, b, c, d], rfl⟩ : Str) =
      hexChars 65535 ++ (':' :: dispIpv4 ⟨[a, b, c, d], rfl⟩) := rfl
  have hnum : readNumberF 16 4 65535 true
      (hexChars 65535 ++ (':' :: dispIpv4 ⟨[a, b, c, d], rfl⟩)) =
      some (⟨65535, by omega⟩, ':' :: dispIpv4 ⟨[a, b, c, d], rfl⟩) := by
    apply readNumberF_hex (by omega)
    intro c hc
    simp only [List.head?_cons, Option.some.injEq] at hc
    subst hc
    exact isRadixDigit_colon 16
  obtain ⟨f', rfl⟩ : ∃ f', f = f' + 1 := ⟨f - 1, by omega⟩
  have hrec : readGroupsAux (f' + 1) false (':' :: dispIpv4 ⟨[a, b, c, d], rfl⟩) =
      ([group16 a b, group16 c d], true, []) :=
    readGroupsAux_v4tail f' (by omega) a b c d
  rw [hstr, readGroupsAux_succ_eq]
  have hiv4 : readSep ':' true readIpv4
      (hexChars 65535 ++ (':' :: dispIpv4 ⟨[a, b, c, d], rfl⟩)) = none := by
    simp only [readSep, if_true]
    exact readIpv4_f_head
  rw [if_pos (by omega : 1 ≤ f' + 1), hiv4]
  have hsep : readSep ':' true (readNumberF 16 4 65535 true)
      (hexChars 65535 ++ (':' :: dispIpv4 ⟨[a, b, c, d], rfl⟩)) =
      some (⟨65535, by omega⟩, ':' :: dispIpv4 ⟨[a, b, c, d], rfl⟩) := by
    simp only [readSep, if_true]
    exact hnum
  rw [hsep]
  simp only [hrec]

theorem readIpv6_dcolon (s2 : Str) :
    readIpv6 (':' :: ':' :: s2) =
      some (List.replicate (8 - (readGroupsAux 7 true s2).1.length) 0 ++
        (readGroupsAux 7 true s2).1, (readGroupsAux 7 true s2).2.2) := by
  have hstop := readGroupsAux_stop 8 true (Or.inr ⟨s2, rfl⟩)
  simp only [readIpv6, hstop]
  norm_num

theorem readIpv6_disp (x : Ipv6) : readIpv6 (dispIpv6 x) = some (x.val, []) := by
  obtain ⟨segs, h8⟩ := x
  obtain ⟨s0, s1, s2, s3, s4, s5, s6, s7, rfl⟩ := length_eight_form h8
  by_cases hmap : s0 = 0 ∧ s1 = 0 ∧ s2 = 0 ∧ s3 = 0 ∧ s4 = 0 ∧
      s5 = (65535 : Fin 65536)
  · have hs6 := s6.isLt
    have hs7 := s7.isLt
    have hdisp : dispIpv6 ⟨[s0, s1, s2, s3, s4, s5, s6, s7], h8⟩ =
        ':' :: ':' :: 'f' :: 'f' :: 'f' :: 'f' :: ':' ::
          dispIpv4 ⟨[⟨s6.val / 256, by omega⟩, ⟨s6.val % 256, by omega⟩,
                     ⟨s7.val / 256, by omega⟩, ⟨s7.val % 256, by omega⟩], rfl⟩ := by
      simp only [dispIpv6, if_pos hmap]
    rw [hdisp, readIpv6_dcolon]
    have hmapped : readGroupsAux 7 true
        ('f' :: 'f' :: 'f' :: 'f' :: ':' ::
          dispIpv4 ⟨[⟨s6.val / 256, by omega⟩, ⟨s6.val % 256, by omega⟩,
                     ⟨s7.val / 256, by omega⟩, ⟨s7.val % 256, by omega⟩], rfl⟩) =
        ([⟨65535, by omega⟩,
          group16 ⟨s6.val / 256, by omega⟩ ⟨s6.val % 256, by omega⟩,
          group16 ⟨s7.val / 256, by omega⟩ ⟨s7.val % 256, by omega⟩], true, []) :=
      readGroupsAux_ffff 6 (by omega) _ _ _ _
    rw [hmapped]
    obtain ⟨h0, h1, h2, h3, h4, h5⟩ := hmap
    subst h0 h1 h2 h3 h4 h5
    norm_num [List.replicate, group16]
    refine ⟨Fin.ext rfl, ?_, ?_⟩
    · apply Fin.ext
      show s6.val / 256 * 256 + s6.val % 256 = s6.val
      have := Nat.div_add_mod s6.val 256
      omega
    · apply Fin.ext
      show s7.val / 256 * 256 + s7.val % 256 = s7.val
      have := Nat.div_add_mod s7.val 256
      omega
  · have hspan := longestZeroRun_span [s0, s1, s2, s3, s4, s5, s6, s7]
    by_cases hz2 : 1 < (longestZeroRun [s0, s1, s2, s3, s4, s5, s6, s7]).2
    · have hdisp : dispIpv6 ⟨[s0, s1, s2, s3, s4, s5, s6, s7], h8⟩ =
          groupsStr (([s0, s1, s2, s3, s4, s5, s6, s7] : List (Fin 65536)).take
            (longestZeroRun [s0, s1, s2, s3, s4, s5, s6, s7]).1) ++
          ':' :: ':' :: groupsStr (([s0, s1, s2, s3, s4, s5, s6, s7] : List (Fin 65536)).drop
            ((longestZeroRun [s0, s1, s2, s3, s4, s5, s6, s7]).1 +
             (longestZeroRun [s0, s1, s2, s3, s4, s5, s6, s7]).2)) := by
        simp only [dispIpv6, if_neg hmap, if_pos hz2]
      rw [hdisp]
      have hblen : (([s0, s1, s2, s3, s4, s5, s6, s7] : List (Fin 65536)).take
          (longestZeroRun [s0, s1, s2, s3, s4, s5, s6, s7]).1).length =
          (longestZeroRun [s0, s1, s2, s3, s4, s5, s6, s7]).1 := by
        rw [List.length_take]
        have := hspan.1
        simp only [List.length_cons, List.length_nil] at this
        omega
      have halen : (([s0, s1, s2, s3, s4, s5, s6, s7] : List (Fin 65536)).drop
          ((longestZeroRun [s0, s1, s2, s3, s4, s5, s6, s7]).1 +
           (longestZeroRun [s0, s1, s2, s3, s4, s5, s6, s7]).2)).length =
          8 - ((longestZeroRun [s0, s1, s2, s3, s4, s5, s6, s7]).1 +
           (longestZeroRun [s0, s1, s2, s3, s4, s5, s6, s7]).2) := by
        rw [List.length_drop]
        rfl
      have hk : (([s0, s1, s2, s3, s4, s5, s6, s7] : List (Fin 65536)).take
          (longestZeroRun [s0, s1, s2, s3, s4, s5, s6, s7]).1).length +
          (([s0, s1, s2, s3, s4, s5, s6, s7] : List (Fin 65536)).drop
          ((longestZeroRun [s0, s1, s2, s3, s4, s5, s6, s7]).1 +
           (longestZeroRun [s0, s1, s2, s3, s4, s5, s6, s7]).2)).length ≤ 6 := by
        rw [hblen, halen]
        have := hspan.1
        simp only [List.length_cons, List.length_nil] at this
        omega
      rw [readIpv6_compressed _ _ hk]
      have hdecomp := span_decomp hspan
      have hcount : 8 - (([s0, s1, s2, s3, s4, s5, s6, s7] : List (Fin 65536)).take
          (longestZeroRun [s0, s1, s2, s3, s4, s5, s6, s7]).1).length -
          (([s0, s1, s2, s3, s4, s5, s6, s7] : List (Fin 65536)).drop
          ((longestZeroRun [s0, s1, s2, s3, s4, s5, s6, s7]).1 +
           (longestZeroRun [s0, s1, s2, s3, s4, s5, s6, s7]).2)).length =
          (longestZeroRun [s0, s1, s2, s3, s4, s5, s6, s7]).2 := by
        rw [hblen, halen]
        have := hspan.1
        simp only [List.length_cons, List.length_nil] at this
        omega
      rw [hcount]
      exact congrArg _ (congrArg (fun l => (l, ([] : Str))) hdecomp.symm)
    · have hdisp : dispIpv6 ⟨[s0, s1, s2, s3, s4, s5, s6, s7], h8⟩ =
          groupsStr [s0, s1, s2, s3, s4, s5, s6, s7] := by
        simp only [dispIpv6, if_neg hmap, if_neg hz2]
      rw [hdisp]
      exact readIpv6_uncompressed _ h8

theorem dot_not_mem_comp (before after : List (Fin 65536)) :
    ('.' : Char) ∉ groupsStr before ++ ':' :: ':' :: groupsStr after := by
  intro hmem
  rcases List.mem_append.mp hmem with h | h
  · exact dot_not_mem_groupsStr h
  · simp only [List.mem_cons] at h
    rcases h with h | h | h
    · exact absurd h (by decide)
    · exact absurd h (by decide)
    · exact dot_not_mem_groupsStr h

theorem readIpv4_dispIpv6 (x : Ipv6) : readIpv4 (dispIpv6 x) = none := by
  obtain ⟨segs, h8⟩ := x
  obtain ⟨s0, s1, s2, s3, s4, s5, s6, s7, rfl⟩ := length_eight_form h8
  by_cases hmap : s0 = 0 ∧ s1 = 0 ∧ s2 = 0 ∧ s3 = 0 ∧ s4 = 0 ∧
      s5 = (65535 : Fin 65536)
  · simp only [dispIpv6, if_pos hmap]
    exact readIpv4_colon_head
  · by_cases hz2 : 1 < (longestZeroRun [s0, s1, s2, s3, s4, s5, s6, s7]).2
    · simp only [dispIpv6, if_neg hmap, if_pos hz2]
      exact readIpv4_no_dot (dot_not_mem_comp _ _)
    · simp only [dispIpv6, if_neg hmap, if_neg hz2]
      exact readIpv4_no_dot dot_not_mem_groupsStr

/-- Round trip: Rust's `IpAddr` `Display` output parses back to the same
address. -/
theorem parseIpAddr_disp (a : IpAddr) : parseIpAddr (dispIpAddr a) = some a := by
  cases a with
  | V4 q =>
    have h : readIpv4 (dispIpv4 q ++ []) = some (q, []) := readIpv4_disp q (by simp)
    rw [List.append_nil] at h
    simp only [parseIpAddr, dispIpAddr, h, if_pos rfl, if_true]
  | V6 x =>
    obtain ⟨v, hv⟩ := x
    have h4 := readIpv4_dispIpv6 ⟨v, hv⟩
    have h6 := readIpv6_disp ⟨v, hv⟩
    simp only [parseIpAddr, dispIpAddr, h4, h6, if_true]
    rw [dif_pos hv]

/-! ## The data model of `src/config.rs` -/

/-- `HostEntry` from `src/config.rs`: IP address, hostname, optional
comment. -/
structure HostEntry where
  ip : IpAddr
  hostname : Str
  comment : Option Str
deriving DecidableEq

/-- `HostEntry::to_line`: `"IP hostname"`, or `"IP hostname # comment"`
when a comment is present. -/
def HostEntry.to_line (e : HostEntry) : Str :=
  match e.comment with
  | some c => dispIpAddr e.ip ++ ' ' :: e.hostname ++ ' ' :: '#' :: ' ' :: c
  | none => dispIpAddr e.ip ++ ' ' :: e.hostname

/-- `Environment` from `src/config.rs`: name, optional description, ordered
entry list. -/
structure Environment where
  name : Str
  description : Option Str
  entries : List HostEntry
deriving DecidableEq

/-- `Environment::add_entry`: append, never deduplicating. -/
def Environment.add_entry (env : Environment) (e : HostEntry) : Environment :=
  { env with entries := env.entries ++ [e] }

/-- `Environment::remove_entry`: remove the first entry whose hostname
matches exactly; returns the updated environment and whether a removal
occurred (the Rust method mutates and returns `bool`). -/
def Environment.remove_entry (env : Environment) (hostname : Str) :
    Environment × Bool :=
  match env.entries.findIdx? (fun e => e.hostname == hostname) with
  | some i => ({ env with entries := env.entries.eraseIdx i }, true)
  | none => (env, false)

/-- `Environment::find_entry`: first entry with the given hostname. -/
def Environment.find_entry (env : Environment) (hostname : Str) : Option HostEntry :=
  env.entries.find? (fun e => e.hostname == hostname)

/-- `Config` from `src/config.rs`.  The Rust `environments` field is a
`HashMap<String, Environment>`; it is modelled as an association list with
unique keys observed through the same `get`/`insert`/`remove` interface
(iteration order over a `HashMap` is unspecified). -/
structure Config where
  current_environment : Option Str
  environments : List (Str × Environment)
deriving DecidableEq

/-- `Config::get_environment` (`HashMap::get`). -/
def Config.get_environment (cfg : Config) (name : Str) : Option Environment :=
  (cfg.environments.find? (fun p => p.1 == name)).map (fun p => p.2)

/-- `Config::add_environment` (`HashMap::insert`, keyed by `env.name`):
silently replaces an existing environment of the same name. -/
def Config.add_environment (cfg : Config) (env : Environment) : Config :=
  if (cfg.environments.find? (fun p => p.1 == env.name)).isSome then
    { cfg with environments :=
        cfg.environments.map (fun p => if p.1 == env.name then (env.name, env) else p) }
  else
    { cfg with environments := cfg.environments ++ [(env.name, env)] }

/-- `Config::remove_environment`: remove by key; clear
`current_environment` exactly when a removal occurred and the removed name
was the active one; returns whether a removal occurred. -/
def Config.remove_environment (cfg : Config) (name : Str) : Config × Bool :=
  if (cfg.environments.find? (fun p => p.1 == name)).isSome = true ∧
      cfg.current_environment = some name then
    ({ current_environment := none,
       environments := cfg.environments.filter (fun p => !(p.1 == name)) },
     (cfg.environments.find? (fun p => p.1 == name)).isSome)
  else
    ({ cfg with environments := cfg.environments.filter (fun p => !(p.1 == name)) },
     (cfg.environments.find? (fun p => p.1 == name)).isSome)

/-! ## The hosts engine of `src/hosts.rs` -/

/-- `HostsManager::parse_hosts_line`: trim; skip empty and comment lines;
split at the first `'#'` (everything after, trimmed, is the comment);
whitespace-tokenise the part before; require at least two tokens; token 0
must parse as an IP address and token 1 is the hostname verbatim. -/
def parse_hosts_line (line : Str) : Option HostEntry :=
  let t := trimStr line
  if t.isEmpty then none
  else if t.head? = some '#' then none
  else
    let pc : Str × Option Str :=
      match t.findIdx? (fun c => c == '#') with
      | some pos => (t.take pos, some (trimStr (t.drop (pos + 1))))
      | none => (t, none)
    match splitWhitespace pc.1 with
    | p0 :: p1 :: _ =>
      match parseIpAddr p0 with
      | some ip => some ⟨ip, p1, pc.2⟩
      | none => none
    | _ => none

/-- The managed-section marker substring tested by `separate_entries`. -/
def markerStr : Str := ("hostctl managed entries").toList

/-- The loop of `HostsManager::separate_entries`: a line containing the
marker switches into the managed section and contributes nothing; other
lines that parse become system or managed entries according to the flag. -/
def sepGo : List Str → Bool → List HostEntry × List HostEntry
  | [], _ => ([], [])
  | l :: ls, inManaged =>
    if containsSub markerStr l then sepGo ls true
    else
      match parse_hosts_line l with
      | some e =>
        let r := sepGo ls inManaged
        if inManaged then (r.1, e :: r.2) else (e :: r.1, r.2)
      | none => sepGo ls inManaged

/-- `HostsManager::separate_entries`: split hosts-file content into
(system entries, hostctl-managed entries). -/
def separate_entries (content : Str) : List HostEntry × List HostEntry :=
  sepGo (linesOf content) false

/-- `HostsManager::is_valid_hostname`: non-empty, at most 253 bytes, and
every dot-separated label is non-empty, at most 63 bytes, does not start or
end with `'-'`, and contains only alphanumerics and `'-'`. -/
def is_valid_hostname (hostname : Str) : Bool :=
  if hostname.isEmpty || 253 < utf8Len hostname then false
  else
    (splitOnChar '.' hostname).all (fun label =>
      !label.isEmpty && utf8Len label ≤ 63 &&
      !(label.head? == some '-') && !(label.getLast? == some '-') &&
      label.all (fun c => rustIsAlphanumeric c || c == '-'))

/-- The separator line written by `apply_environment` (without its
surrounding newlines). -/
def managedSeparator : Str := ("# ===== hostctl managed entries =====").toList

/-- Serialise entries one per line, each line newline-terminated (the two
`push_str`/`push` loops of `apply_environment`). -/
def joinNL : List HostEntry → Str
  | [] => []
  | e :: es => e.to_line ++ '\n' :: joinNL es

/-- The content `apply_environment` writes: system entries, a blank line,
the separator line, then the environment's entries, every line
newline-terminated. -/
def newHostsContent (currentContent : Str) (env : Environment) : Str :=
  joinNL (separate_entries currentContent).1 ++
    '\n' :: (managedSeparator ++ '\n' :: joinNL env.entries)

/-- Calendar timestamp handed to `chrono`'s `%Y%m%d_%H%M%S` format; field
bounds reflect the values `chrono::Local::now()` can produce for the
four-digit-year era. -/
structure Timestamp where
  year : Fin 10000
  month : Fin 100
  day : Fin 100
  hour : Fin 100
  minute : Fin 100
  second : Fin 100

/-- Two-digit zero-padded decimal (`%m`, `%d`, `%H`, `%M`, `%S`). -/
def pad2 (n : Nat) : Str := if n < 10 then '0' :: decChars n else decChars n

/-- Four-digit zero-padded decimal (`%Y`). -/
def pad4 (n : Nat) : Str :=
  if n < 10 then '0' :: '0' :: '0' :: decChars n
  else if n < 100 then '0' :: '0' :: decChars n
  else if n < 1000 then '0' :: decChars n
  else decChars n

/-- `chrono` format `%Y%m%d_%H%M%S`. -/
def formatTimestamp (t : Timestamp) : Str :=
  pad4 t.year.val ++ pad2 t.month.val ++ pad2 t.day.val ++
    '_' :: (pad2 t.hour.val ++ pad2 t.minute.val ++ pad2 t.second.val)

/-- The backup file name built by `backup_hosts_file`:
`hosts.backup.` followed by the formatted timestamp, a sibling of the
hosts file (`Path::with_file_name`). -/
def backupFileName (t : Timestamp) : Str :=
  ("hosts.backup.").toList ++ formatTimestamp t

/-- Outcome oracle for the three fallible file operations of
`apply_environment` (`fs::copy`, `fs::read_to_string`, `fs::write`). -/
structure FsOracle where
  backupOk : Bool
  readOk : Bool
  writeOk : Bool

/-- The observable file-system state threaded through the apply path: the
hosts file content and the backup file (its content, when one was
created). -/
structure World where
  hosts : Str
  backup : Option Str
deriving DecidableEq

/-- `HostsManager::apply_environment`: backup, read, rebuild, write, in
that order, failing fast; the world records which files changed. -/
def apply_environment (o : FsOracle) (env : Environment) (w : World) :
    World × Except Str Unit :=
  if o.backupOk = false then (w, .error (("Failed to create backup").toList))
  else
    let w1 : World := { w with backup := some w.hosts }
    if o.readOk = false then (w1, .error (("Failed to read hosts file").toList))
    else
      let newContent := newHostsContent w1.hosts env
      if o.writeOk = false then (w1, .error (("Failed to write hosts file").toList))
      else ({ w1 with hosts := newContent }, .ok ())

/-- `switch_environment` from `src/main.rs`: look up the environment,
validate every entry's hostname (bailing on the first invalid one before
any file operation), then apply and record the new current environment.
The configuration store save is an external collaborator modelled as
succeeding. -/
def switch_environment (o : FsOracle) (cfg : Config) (name : Str) (w : World) :
    World × Except Str Config :=
  match cfg.get_environment name with
  | none => (w, .error (("Environment not found.").toList))
  | some env =>
    match env.entries.find? (fun e => !is_valid_hostname e.hostname) with
    | some e =>
      (w, .error (("Invalid hostname in environment: ").toList ++ e.hostname))
    | none =>
      let r := apply_environment o env w
      match r.2 with
      | .error msg => (r.1, .error msg)
      | .ok _ => (r.1, .ok { cfg with current_environment := some name })

/-! ## Helper lemmas about `findIdx?`, `find?` and `splitOnPred` -/

theorem findIdx?_spec {α : Type} {p : α → Bool} :
    ∀ {l : List α} {i : Nat}, l.findIdx? p = some i →
      ∃ pre x post, l = pre ++ x :: post ∧ pre.length = i ∧ p x = true ∧
        (∀ y ∈ pre, p y = false) ∧ l.eraseIdx i = pre ++ post
  | [], i, h => by simp at h
  | a :: l', i, h => by
    rw [List.findIdx?_cons] at h
    by_cases hpa : p a = true
    · rw [if_pos hpa] at h
      simp only [Option.some.injEq] at h
      subst h
      exact ⟨[], a, l', rfl, rfl, hpa, by simp, rfl⟩
    · rw [if_neg hpa, List.findIdx?_succ] at h
      obtain ⟨j, hj, rfl⟩ := Option.map_eq_some'.mp h
      obtain ⟨pre, x, post, hl, hlen, hpx, hpre, herase⟩ := findIdx?_spec hj
      refine ⟨a :: pre, x, post, by rw [hl]; rfl, by simp [hlen], hpx, ?_, ?_⟩
      · intro y hy
        rcases List.mem_cons.mp hy with rfl | hy
        · simpa using hpa
        · exact hpre y hy
      · show (a :: l').eraseIdx (j + 1) = a :: pre ++ post
        simp only [List.eraseIdx_cons_succ, herase, List.cons_append]

theorem find?_filter_of_imp {α : Type} {q r : α → Bool}
    (h : ∀ x, q x = true → r x = true) :
    ∀ l : List α, (l.filter r).find? q = l.find? q
  | [] => rfl
  | a :: l => by
    by_cases hqa : q a = true
    · have hra := h a hqa
      simp [List.filter_cons, hra, List.find?_cons, hqa]
    · by_cases hra : r a = true
      · simp only [List.filter_cons, hra, if_true]
        simp only [List.find?_cons, hqa, Bool.false_eq_true, if_false]
        simpa [hqa] using find?_filter_of_imp h l
      · simp only [List.filter_cons, hra, if_false, Bool.false_eq_true]
        simp only [List.find?_cons, hqa, Bool.false_eq_true, if_false]
        simpa [hqa] using find?_filter_of_imp h l

theorem splitOnPred_ne_nil {p : Char → Bool} : ∀ {s : Str}, splitOnPred p s ≠ []
  | [] => by simp [splitOnPred]
  | c :: cs => by
    simp only [splitOnPred]
    split
    · simp
    · split
      · simp
      · simp

theorem splitOnPred_append_sep {p : Char → Bool} {c : Char} (hc : p c = true) :
    ∀ (A B : Str), splitOnPred p (A ++ c :: B) = splitOnPred p A ++ splitOnPred p B
  | [], B => by simp [splitOnPred, hc]
  | x :: A', B => by
    by_cases hx : p x = true
    · simp only [List.cons_append, splitOnPred, hx, if_true, List.append_eq]
      rw [splitOnPred_append_sep hc A' B]
    · simp only [List.cons_append, splitOnPred, hx, Bool.false_eq_true, if_false,
        List.append_eq]
      rw [splitOnPred_append_sep hc A' B]
      cases hA : splitOnPred p A' with
      | nil => exact absurd hA splitOnPred_ne_nil
      | cons t ts => simp

theorem splitOnPred_clean {p : Char → Bool} :
    ∀ {s : Str}, (∀ x ∈ s, p x = false) → splitOnPred p s = [s]
  | [], _ => rfl
  | x :: s', h => by
    have hx : p x = false := h x (List.mem_cons_self x s')
    simp only [splitOnPred, hx, Bool.false_eq_true, if_false]
    rw [splitOnPred_clean fun y hy => h y (List.mem_cons_of_mem x hy)]

/-! ## Claim C9: `Environment::remove_entry` -/

/-- C9: `remove_entry` returns `true` iff some entry's hostname equals the
argument by exact string match; when it returns `true`, exactly the first
such entry in insertion order is removed (entries before it — none of which
match — and all entries after it, duplicates included, are kept in order);
when it returns `false` the environment is unchanged. -/
theorem c9_remove_entry (env : Environment) (h : Str) :
    ((env.remove_entry h).2 = true ↔ ∃ e ∈ env.entries, e.hostname = h) ∧
    ((env.remove_entry h).2 = true →
      ∃ pre e post, env.entries = pre ++ e :: post ∧
        (∀ e' ∈ pre, e'.hostname ≠ h) ∧ e.hostname = h ∧
        (env.remove_entry h).1.entries = pre ++ post ∧
        (env.remove_entry h).1.name = env.name ∧
        (env.remove_entry h).1.description = env.description) ∧
    ((env.remove_entry h).2 = false → (env.remove_entry h).1 = env) := by
  cases hf : env.entries.findIdx? (fun e => e.hostname == h) with
  | none =>
    have hnone := List.findIdx?_eq_none_iff.mp hf
    refine ⟨?_, ?_, ?_⟩
    · simp only [Environment.remove_entry, hf]
      constructor
      · intro hcon
        simp at hcon
      · rintro ⟨e, he, hh⟩
        have := hnone e he
        simp [hh] at this
    · intro hcon
      simp [Environment.remove_entry, hf] at hcon
    · intro _
      simp [Environment.remove_entry, hf]
  | some i =>
    obtain ⟨pre, x, post, hl, hlen, hpx, hpre, herase⟩ := findIdx?_spec hf
    have hre : env.remove_entry h = ({ env with entries := env.entries.eraseIdx i }, true) := by
      simp only [Environment.remove_entry, hf]
    refine ⟨?_, ?_, ?_⟩
    · rw [hre]
      constructor
      · intro _
        exact ⟨x, by rw [hl]; exact List.mem_append_right _ (List.mem_cons_self x post),
          by simpa using hpx⟩
      · intro _
        rfl
    · intro _
      rw [hre]
      refine ⟨pre, x, post, hl, ?_, by simpa using hpx, ?_, rfl, rfl⟩
      · intro e' he' hcon
        have := hpre e' he'
        simp [hcon] at this
      · exact herase
    · intro hcon
      rw [hre] at hcon
      simp at hcon

/-! ## Claim C8: `Config::remove_environment` and the current-environment
invariant -/

/-- The configuration invariant: the current environment, when set, names
an existing environment. -/
def ConfigInv (cfg : Config) : Prop :=
  ∀ n, cfg.current_environment = some n → (cfg.get_environment n).isSome = true

theorem remove_environment_snd (cfg : Config) (name : Str) :
    (cfg.remove_environment name).2 =
      (cfg.environments.find? (fun p => p.1 == name)).isSome := by
  unfold Config.remove_environment
  split <;> rfl

theorem remove_environment_fst_envs (cfg : Config) (name : Str) :
    (cfg.remove_environment name).1.environments =
      cfg.environments.filter (fun p => !(p.1 == name)) := by
  unfold Config.remove_environment
  split <;> rfl

theorem find?_replace_self (name : Str) (env : Environment) :
    ∀ (l : List (Str × Environment)),
      (l.find? (fun p => p.1 == name)).isSome = true →
      (l.map (fun p => if p.1 == name then (name, env) else p)).find?
          (fun p => p.1 == name) = some (name, env)
  | [], h => by simp at h
  | q :: l, h => by
    by_cases hq : (q.1 == name) = true
    · rw [List.map_cons, if_pos hq, List.find?_cons]
      have hself : (((name, env) : Str × Environment).1 == name) = true := by simp
      rw [hself]
    · have hqf : (q.1 == name) = false := by simpa using hq
      rw [List.map_cons, if_neg hq, List.find?_cons, hqf]
      apply find?_replace_self name env l
      simp only [List.find?_cons, hqf] at h
      exact h

theorem find?_replace_other_isSome (name n : Str) (env : Environment)
    (hne : ¬ (n == name) = true) :
    ∀ (l : List (Str × Environment)),
      ((l.map (fun p => if p.1 == name then (name, env) else p)).find?
          (fun p => p.1 == n)).isSome =
        (l.find? (fun p => p.1 == n)).isSome
  | [] => rfl
  | q :: l => by
    have hnne : name ≠ n := by
      intro hcon
      exact hne (by simp [hcon])
    by_cases hq : (q.1 == name) = true
    · have hqname : q.1 = name := by simpa using hq
      have h1 : (((name, env) : Str × Environment).1 == n) = false := by
        simpa using hnne
      have h2 : (q.1 == n) = false := by
        rw [hqname]
        exact h1
      rw [List.map_cons, if_pos hq, List.find?_cons, h1, List.find?_cons, h2]
      exact find?_replace_other_isSome name n env hne l
    · rw [List.map_cons, if_neg hq, List.find?_cons, List.find?_cons]
      cases hqn : (q.1 == n) with
      | true => rfl
      | false => exact find?_replace_other_isSome name n env hne l

/-- C8: `remove_environment` returns `true` iff an environment with that
name was present, and removes it; `current_environment` is cleared exactly
when the removed name was the active one; and both `remove_environment`
and `add_environment` preserve the invariant that an active environment
name always exists in the map. -/
theorem c8_remove_environment (cfg : Config) (name : Str) :
    ((cfg.remove_environment name).2 = true ↔
      (cfg.get_environment name).isSome = true) ∧
    ((cfg.remove_environment name).1.get_environment name = none) ∧
    ((cfg.remove_environment name).1.current_environment =
      if (cfg.get_environment name).isSome = true ∧
          cfg.current_environment = some name
      then none else cfg.current_environment) ∧
    (ConfigInv cfg → ConfigInv (cfg.remove_environment name).1) ∧
    (∀ env, ConfigInv cfg → ConfigInv (cfg.add_environment env)) := by
  have hgetSome : (cfg.get_environment name).isSome =
      (cfg.environments.find? (fun p => p.1 == name)).isSome := by
    unfold Config.get_environment
    rw [Option.isSome_map']
  refine ⟨?_, ?_, ?_, ?_, ?_⟩
  · rw [remove_environment_snd, hgetSome]
  · unfold Config.get_environment
    rw [remove_environment_fst_envs]
    have hnone : (cfg.environments.filter (fun p => !(p.1 == name))).find?
        (fun p => p.1 == name) = none := by
      rw [List.find?_eq_none]
      intro x hx
      have h2 := (List.mem_filter.mp hx).2
      simp only [Bool.not_eq_true'] at h2
      simp [h2]
    rw [hnone]
    rfl
  · rw [hgetSome]
    unfold Config.remove_environment
    by_cases hC : (cfg.environments.find? (fun p => p.1 == name)).isSome = true ∧
        cfg.current_environment = some name
    · rw [if_pos hC, if_pos hC]
    · rw [if_neg hC, if_neg hC]
  · intro hinv n hn
    unfold Config.remove_environment at hn
    split at hn
    · rename_i hcond
      simp at hn
    · rename_i hcond
      have hn' : cfg.current_environment = some n := hn
      have hgn := hinv n hn'
      unfold Config.get_environment at hgn ⊢
      rw [Option.isSome_map'] at hgn
      rw [remove_environment_fst_envs, Option.isSome_map']
      by_cases hnn : n = name
      · exfalso
        subst hnn
        exact hcond ⟨hgn, hn'⟩
      · rw [find?_filter_of_imp]
        · exact hgn
        · intro x hx
          have hxn : x.1 = n := by simpa using hx
          simp only [Bool.not_eq_true', beq_eq_false_iff_ne, ne_eq, hxn]
          intro hcon
          exact hnn hcon
  · intro env hinv n hn
    unfold Config.add_environment at hn ⊢
    by_cases hb : (cfg.environments.find? (fun p => p.1 == env.name)).isSome = true
    · rw [if_pos hb] at hn ⊢
      have hn' : cfg.current_environment = some n := hn
      have hgn := hinv n hn'
      unfold Config.get_environment at hgn ⊢
      rw [Option.isSome_map'] at hgn
      simp only
      rw [Option.isSome_map']
      by_cases hnn : (n == env.name) = true
      · have hname : n = env.name := by simpa using hnn
        subst hname
        rw [find?_replace_self env.name env cfg.environments hb]
        rfl
      · rw [find?_replace_other_isSome env.name n env hnn]
        exact hgn
    · rw [if_neg hb] at hn ⊢
      have hn' : cfg.current_environment = some n := hn
      have hgn := hinv n hn'
      unfold Config.get_environment at hgn ⊢
      rw [Option.isSome_map'] at hgn
      simp only
      rw [Option.isSome_map', List.find?_append]
      cases hfl : cfg.environments.find? (fun p => p.1 == n) with
      | some q => simp
      | none =>
        rw [hfl] at hgn
        simp at hgn

/-! ## Concrete fixtures for witnesses -/

/-- 127.0.0.1 as a model value. -/
def localhostIp : IpAddr :=
  .V4 ⟨[⟨127, by omega⟩, ⟨0, by omega⟩, ⟨0, by omega⟩, ⟨1, by omega⟩], rfl⟩

/-- Sample environment with a duplicated hostname. -/
def envC9 : Environment :=
  { name := ("test").toList, description := none,
    entries := [⟨localhostIp, ("api").toList, none⟩,
                ⟨localhostIp, ("db").toList, none⟩,
                ⟨localhostIp, ("api").toList, some (("dup").toList)⟩] }

/-- Sample configuration whose active environment is `dev`. -/
def cfgC8 : Config :=
  { current_environment := some (("dev").toList),
    environments := [((("dev").toList), { name := ("dev").toList, description := none,
                                          entries := [] }),
                     ((("prod").toList), { name := ("prod").toList, description := none,
                                           entries := [] })] }

theorem c9_remove_entry_witness :
    (∃ pre e post, envC9.entries = pre ++ e :: post ∧
      (∀ e' ∈ pre, e'.hostname ≠ ("api").toList) ∧ e.hostname = ("api").toList ∧
      (envC9.remove_entry (("api").toList)).1.entries = pre ++ post ∧
      (envC9.remove_entry (("api").toList)).1.name = envC9.name ∧
      (envC9.remove_entry (("api").toList)).1.description = envC9.description) ∧
    (envC9.remove_entry (("missing").toList)).1 = envC9 :=
  ⟨(c9_remove_entry envC9 (("api").toList)).2.1 (by decide),
   (c9_remove_entry envC9 (("missing").toList)).2.2 (by decide)⟩

theorem c8_remove_environment_witness :
    ((cfgC8.remove_environment (("dev").toList)).2 = true ↔
      (cfgC8.get_environment (("dev").toList)).isSome = true) ∧
    ConfigInv (cfgC8.remove_environment (("dev").toList)).1 ∧
    ConfigInv (cfgC8.add_environment { name := ("qa").toList, description := none,
                                       entries := [] }) := by
  have hinv : ConfigInv cfgC8 := by
    intro n hn
    have hn' : some (("dev").toList) = some n := hn
    cases hn'
    decide
  exact ⟨(c8_remove_environment cfgC8 (("dev").toList)).1,
    (c8_remove_environment cfgC8 (("dev").toList)).2.2.2.1 hinv,
    (c8_remove_environment cfgC8 (("dev").toList)).2.2.2.2 _ hinv⟩

/-! ## Claim C4: `separate_entries` -/

theorem sepGo_true :
    ∀ ls : List Str, sepGo ls true =
      ([], (ls.filter (fun l => !containsSub markerStr l)).filterMap parse_hosts_line)
  | [] => rfl
  | l :: ls => by
    by_cases hm : containsSub markerStr l = true
    · simp only [sepGo, hm, if_true, List.filter_cons, Bool.not_true, Bool.false_eq_true,
        if_false]
      exact sepGo_true ls
    · have hm' : containsSub markerStr l = false := by simpa using hm
      cases hp : parse_hosts_line l with
      | some e =>
        simp only [sepGo, hm', Bool.false_eq_true, if_false, hp, List.filter_cons,
          Bool.not_false, if_true, List.filterMap_cons, sepGo_true ls]
      | none =>
        simp only [sepGo, hm', Bool.false_eq_true, if_false, hp, List.filter_cons,
          Bool.not_false, if_true, List.filterMap_cons, sepGo_true ls]

theorem sepGo_false :
    ∀ ls : List Str, sepGo ls false =
      ((ls.takeWhile (fun l => !containsSub markerStr l)).filterMap parse_hosts_line,
       (((ls.dropWhile (fun l => !containsSub markerStr l)).drop 1).filter
          (fun l => !containsSub markerStr l)).filterMap parse_hosts_line)
  | [] => rfl
  | l :: ls => by
    by_cases hm : containsSub markerStr l = true
    · simp only [sepGo, hm, if_true, sepGo_true ls, List.takeWhile_cons, Bool.not_true,
        Bool.false_eq_true, if_false, List.dropWhile_cons, List.filterMap_nil,
        List.drop_succ_cons, List.drop_zero]
    · have hm' : containsSub markerStr l = false := by simpa using hm
      cases hp : parse_hosts_line l with
      | some e =>
        simp only [sepGo, hm', Bool.false_eq_true, if_false, hp, sepGo_false ls,
          List.takeWhile_cons, Bool.not_false, if_true, List.filterMap_cons,
          List.dropWhile_cons]
      | none =>
        simp only [sepGo, hm', Bool.false_eq_true, if_false, hp, sepGo_false ls,
          List.takeWhile_cons, Bool.not_false, if_true, List.filterMap_cons,
          List.dropWhile_cons]

/-- C4: `separate_entries` makes the parseable lines strictly before the
first marker line the foreign set and the parseable non-marker lines after
it the managed set, both in original order; marker lines contribute no
entry, non-parseable lines contribute nothing, and with no marker line
every parsed entry is foreign and the managed set is empty. -/
theorem c4_separate_entries (content : Str) :
    separate_entries content =
      (((linesOf content).takeWhile (fun l => !containsSub markerStr l)).filterMap
          parse_hosts_line,
       ((((linesOf content).dropWhile (fun l => !containsSub markerStr l)).drop 1).filter
          (fun l => !containsSub markerStr l)).filterMap parse_hosts_line) ∧
    ((∀ l ∈ linesOf content, containsSub markerStr l = false) →
      (separate_entries content).2 = []) := by
  constructor
  · exact sepGo_false (linesOf content)
  · intro hall
    unfold separate_entries
    rw [sepGo_false (linesOf content)]
    have hdrop : (linesOf content).dropWhile (fun l => !containsSub markerStr l) = [] := by
      rw [List.dropWhile_eq_nil_iff]
      intro x hx
      simp [hall x hx]
    rw [hdrop]
    rfl

theorem c4_separate_entries_witness :
    (separate_entries (("1.2.3.4 foo\n5.6.7.8 bar\n").toList)).2 = [] :=
  (c4_separate_entries (("1.2.3.4 foo\n5.6.7.8 bar\n").toList)).2 (by decide)

/-! ## Claim C5: the rebuilt hosts-file content -/

theorem joinNL_eq (es : List HostEntry) :
    joinNL es = (es.map HostEntry.to_line).flatMap (fun l => l ++ ['\n']) := by
  induction es with
  | nil => rfl
  | cons e es ih => simp [joinNL, ih]

/-- C5: the content written by an apply is the foreign entries (from
`separate_entries` of the current content) serialised one per line in
original order, a blank line, the exact separator line, then the target
environment's entries serialised in stored order, every serialised line
newline-terminated; the previously managed entries do not influence the
output, and an empty environment still produces the separator with nothing
after it. -/
theorem c5_new_content (content : Str) (env : Environment) :
    newHostsContent content env =
      ((separate_entries content).1.map HostEntry.to_line).flatMap (fun l => l ++ ['\n']) ++
        '\n' :: (managedSeparator ++ '\n' ::
          ((env.entries.map HostEntry.to_line).flatMap (fun l => l ++ ['\n']))) ∧
    (∀ c2 : Str, (separate_entries c2).1 = (separate_entries content).1 →
      newHostsContent c2 env = newHostsContent content env) ∧
    (env.entries = [] →
      newHostsContent content env =
        ((separate_entries content).1.map HostEntry.to_line).flatMap
            (fun l => l ++ ['\n']) ++
          '\n' :: (managedSeparator ++ ['\n'])) := by
  refine ⟨?_, ?_, ?_⟩
  · unfold newHostsContent
    rw [joinNL_eq, joinNL_eq]
  · intro c2 h
    unfold newHostsContent
    rw [h]
  · intro h
    unfold newHostsContent
    rw [h, joinNL_eq]
    rfl

theorem c5_new_content_witness :
    newHostsContent (("1.2.3.4 foo\n").toList)
        { name := ("empty").toList, description := none, entries := [] } =
      ((separate_entries (("1.2.3.4 foo\n").toList)).1.map HostEntry.to_line).flatMap
          (fun l => l ++ ['\n']) ++
        '\n' :: (managedSeparator ++ ['\n']) :=
  (c5_new_content (("1.2.3.4 foo\n").toList) _).2.2 rfl

/-! ## Claim C2: backup-read-rebuild-write order and the backup name -/

theorem digitsF_length_ge {b : Nat} (hb2 : 2 ≤ b) :
    ∀ {fuel n k : Nat}, n < fuel → b ^ k ≤ n → k + 1 ≤ (digitsF b fuel n).length
  | 0, _, _, h, _ => by omega
  | fuel + 1, n, k, h, hk => by
    by_cases hn : n < b
    · have hk0 : k = 0 := by
        by_contra hkk
        have h1 : b ^ 1 ≤ b ^ k := Nat.pow_le_pow_right (by omega) (by omega)
        simp only [pow_one] at h1
        omega
      subst hk0
      simp [digitsF, if_pos hn]
    · have hdivlt : n / b < n := Nat.div_lt_self (by omega) (by omega)
      have hfuel : n / b < fuel := by omega
      simp only [digitsF, if_neg hn, List.length_append, List.length_cons, List.length_nil]
      cases k with
      | zero =>
        have : digitsF b fuel (n / b) ≠ [] := digitsF_ne_nil hfuel
        have hpos : 0 < (digitsF b fuel (n / b)).length := List.length_pos.mpr this
        omega
      | succ k' =>
        have hk' : b ^ k' ≤ n / b := by
          rw [Nat.le_div_iff_mul_le (by omega : 0 < b)]
          calc b ^ k' * b = b ^ (k' + 1) := by rw [Nat.pow_succ]
            _ ≤ n := hk
        have := digitsF_length_ge hb2 hfuel hk'
        omega

theorem mem_decChars_isDigit {n : Nat} {c : Char} (h : c ∈ decChars n) :
    c.isDigit = true := by
  obtain ⟨d, hd16, hd10, rfl⟩ := mem_digitsF (by omega) (by omega) h
  interval_cases d <;> first
    | rfl
    | omega

theorem decChars_lt10 {n : Nat} (h : n < 10) : decChars n = [digitChar n] := by
  unfold decChars digitsF
  rw [if_pos h]

theorem decChars_length_two {n : Nat} (h1 : 10 ≤ n) (h2 : n < 100) :
    (decChars n).length = 2 := by
  have hle : (decChars n).length ≤ 2 :=
    digitsF_length_le (by omega) (by omega) (by norm_num; omega) (by omega)
  have hge : 2 ≤ (decChars n).length := by
    have h10 : (10 : Nat) ^ 1 ≤ n := by simpa using h1
    have := digitsF_length_ge (by omega : (2 : Nat) ≤ 10)
      (show n < n + 1 by omega) h10
    simpa [decChars] using this
  omega

theorem decChars_length_three {n : Nat} (h1 : 100 ≤ n) (h2 : n < 1000) :
    (decChars n).length = 3 := by
  have hle : (decChars n).length ≤ 3 :=
    digitsF_length_le (by omega) (by omega) (by norm_num; omega) (by omega)
  have hge : 3 ≤ (decChars n).length := by
    have h10 : (10 : Nat) ^ 2 ≤ n := by norm_num; omega
    have := digitsF_length_ge (by omega : (2 : Nat) ≤ 10)
      (show n < n + 1 by omega) h10
    simpa [decChars] using this
  omega

theorem decChars_length_four {n : Nat} (h1 : 1000 ≤ n) (h2 : n < 10000) :
    (decChars n).length = 4 := by
  have hle : (decChars n).length ≤ 4 :=
    digitsF_length_le (by omega) (by omega) (by norm_num; omega) (by omega)
  have hge : 4 ≤ (decChars n).length := by
    have h10 : (10 : Nat) ^ 3 ≤ n := by norm_num; omega
    have := digitsF_length_ge (by omega : (2 : Nat) ≤ 10)
      (show n < n + 1 by omega) h10
    simpa [decChars] using this
  omega

theorem pad2_spec {n : Nat} (h : n < 100) :
    (pad2 n).length = 2 ∧ ∀ c ∈ pad2 n, c.isDigit = true := by
  unfold pad2
  by_cases hn : n < 10
  · rw [if_pos hn, decChars_lt10 hn]
    refine ⟨rfl, ?_⟩
    intro c hc
    rcases List.mem_cons.mp hc with rfl | hc
    · rfl
    · exact mem_decChars_isDigit (by rw [decChars_lt10 hn]; exact hc)
  · rw [if_neg hn]
    exact ⟨decChars_length_two (by omega) h, fun c hc => mem_decChars_isDigit hc⟩

theorem pad4_spec {n : Nat} (h : n < 10000) :
    (pad4 n).length = 4 ∧ ∀ c ∈ pad4 n, c.isDigit = true := by
  unfold pad4
  by_cases h1 : n < 10
  · rw [if_pos h1, decChars_lt10 h1]
    refine ⟨rfl, ?_⟩
    intro c hc
    simp only [List.mem_cons, List.mem_singleton] at hc
    rcases hc with rfl | rfl | rfl | rfl | hc
    · rfl
    · rfl
    · rfl
    · exact mem_decChars_isDigit (by
        rw [decChars_lt10 h1]
        exact List.mem_singleton.mpr rfl)
    · simp at hc
  · rw [if_neg h1]
    by_cases h2 : n < 100
    · rw [if_pos h2]
      refine ⟨by simp [decChars_length_two (by omega) h2], ?_⟩
      intro c hc
      simp only [List.mem_cons] at hc
      rcases hc with rfl | rfl | hc
      · rfl
      · rfl
      · exact mem_decChars_isDigit hc
    · rw [if_neg h2]
      by_cases h3 : n < 1000
      · rw [if_pos h3]
        refine ⟨by simp [decChars_length_three (by omega) h3], ?_⟩
        intro c hc
        rcases List.mem_cons.mp hc with rfl | hc
        · rfl
        · exact mem_decChars_isDigit hc
      · rw [if_neg h3]
        exact ⟨decChars_length_four (by omega) h, fun c hc => mem_decChars_isDigit hc⟩

/-- C2: `apply_environment` proceeds in the order backup, read, rebuild,
write: a backup failure aborts with the world untouched; a read failure
aborts with the hosts file unchanged and the backup in place; a write
failure leaves the hosts file unchanged and the backup in place; on
success the hosts file holds the rebuilt content and the backup holds the
previous content.  The backup file is the sibling named
`hosts.backup.YYYYMMDD_HHMMSS` — thirteen prefix characters, eight digits,
an underscore and six digits. -/
theorem c2_apply_environment (o : FsOracle) (env : Environment) (w : World)
    (t : Timestamp) :
    (o.backupOk = false →
      (apply_environment o env w).1 = w ∧
      ∃ m, (apply_environment o env w).2 = .error m) ∧
    (o.backupOk = true → o.readOk = false →
      (apply_environment o env w).1.hosts = w.hosts ∧
      (apply_environment o env w).1.backup = some w.hosts ∧
      ∃ m, (apply_environment o env w).2 = .error m) ∧
    (o.backupOk = true → o.readOk = true → o.writeOk = false →
      (apply_environment o env w).1.hosts = w.hosts ∧
      (apply_environment o env w).1.backup = some w.hosts ∧
      ∃ m, (apply_environment o env w).2 = .error m) ∧
    (o.backupOk = true → o.readOk = true → o.writeOk = true →
      (apply_environment o env w).1.hosts = newHostsContent w.hosts env ∧
      (apply_environment o env w).1.backup = some w.hosts ∧
      (apply_environment o env w).2 = .ok ()) ∧
    (∃ ds us, backupFileName t = ("hosts.backup.").toList ++ ds ++ '_' :: us ∧
      ds.length = 8 ∧ us.length = 6 ∧
      (∀ c ∈ ds, c.isDigit = true) ∧ (∀ c ∈ us, c.isDigit = true)) := by
  refine ⟨?_, ?_, ?_, ?_, ?_⟩
  · intro hb
    simp [apply_environment, hb]
  · intro hb hr
    simp [apply_environment, hb, hr]
  · intro hb hr hw
    simp [apply_environment, hb, hr, hw]
  · intro hb hr hw
    simp [apply_environment, hb, hr, hw]
  · refine ⟨pad4 t.year.val ++ pad2 t.month.val ++ pad2 t.day.val,
      pad2 t.hour.val ++ pad2 t.minute.val ++ pad2 t.second.val, ?_, ?_, ?_, ?_, ?_⟩
    · unfold backupFileName formatTimestamp
      simp [List.append_assoc]
    · have hy := (pad4_spec t.year.isLt).1
      have hm := (pad2_spec t.month.isLt).1
      have hd := (pad2_spec t.day.isLt).1
      simp [hy, hm, hd]
    · have hh := (pad2_spec t.hour.isLt).1
      have hmi := (pad2_spec t.minute.isLt).1
      have hs := (pad2_spec t.second.isLt).1
      simp [hh, hmi, hs]
    · intro c hc
      rcases List.mem_append.mp hc with hc | hc
      · rcases List.mem_append.mp hc with hc | hc
        · exact (pad4_spec t.year.isLt).2 c hc
        · exact (pad2_spec t.month.isLt).2 c hc
      · exact (pad2_spec t.day.isLt).2 c hc
    · intro c hc
      rcases List.mem_append.mp hc with hc | hc
      · rcases List.mem_append.mp hc with hc | hc
        · exact (pad2_spec t.hour.isLt).2 c hc
        · exact (pad2_spec t.minute.isLt).2 c hc
      · exact (pad2_spec t.second.isLt).2 c hc

/-- World used by the apply/switch witnesses. -/
def worldW : World := ⟨("1.2.3.4 foo\n").toList, none⟩

/-- Environment used by the apply witness. -/
def envC2 : Environment := ⟨("dev").toList, none, []⟩

/-- Timestamp used by the backup-name witness. -/
def tsC2 : Timestamp :=
  ⟨⟨2024, by omega⟩, ⟨1, by omega⟩, ⟨15, by omega⟩, ⟨14, by omega⟩,
   ⟨30, by omega⟩, ⟨22, by omega⟩⟩

theorem c2_apply_environment_witness :
    ((apply_environment ⟨false, true, true⟩ envC2 worldW).1 = worldW ∧
      ∃ m, (apply_environment ⟨false, true, true⟩ envC2 worldW).2 = .error m) ∧
    ((apply_environment ⟨true, false, true⟩ envC2 worldW).1.hosts = worldW.hosts ∧
      (apply_environment ⟨true, false, true⟩ envC2 worldW).1.backup = some worldW.hosts ∧
      ∃ m, (apply_environment ⟨true, false, true⟩ envC2 worldW).2 = .error m) ∧
    ((apply_environment ⟨true, true, false⟩ envC2 worldW).1.hosts = worldW.hosts ∧
      (apply_environment ⟨true, true, false⟩ envC2 worldW).1.backup = some worldW.hosts ∧
      ∃ m, (apply_environment ⟨true, true, false⟩ envC2 worldW).2 = .error m) ∧
    ((apply_environment ⟨true, true, true⟩ envC2 worldW).1.hosts =
        newHostsContent worldW.hosts envC2 ∧
      (apply_environment ⟨true, true, true⟩ envC2 worldW).1.backup = some worldW.hosts ∧
      (apply_environment ⟨true, true, true⟩ envC2 worldW).2 = .ok ()) ∧
    (∃ ds us, backupFileName tsC2 = ("hosts.backup.").toList ++ ds ++ '_' :: us ∧
      ds.length = 8 ∧ us.length = 6 ∧
      (∀ c ∈ ds, c.isDigit = true) ∧ (∀ c ∈ us, c.isDigit = true)) :=
  ⟨(c2_apply_environment ⟨false, true, true⟩ envC2 worldW tsC2).1 rfl,
   (c2_apply_environment ⟨true, false, true⟩ envC2 worldW tsC2).2.1 rfl rfl,
   (c2_apply_environment ⟨true, true, false⟩ envC2 worldW tsC2).2.2.1 rfl rfl rfl,
   (c2_apply_environment ⟨true, true, true⟩ envC2 worldW tsC2).2.2.2.1 rfl rfl rfl,
   (c2_apply_environment ⟨true, true, true⟩ envC2 worldW tsC2).2.2.2.2⟩

/-! ## Claim C1: the validation gate before apply -/

/-- C1: for any configuration and environment name, when the target
environment contains an entry whose hostname fails `is_valid_hostname`,
`switch_environment` returns an error with the world completely untouched —
no backup appears and the hosts file is unchanged, so `apply_environment`
was not invoked; when every hostname is valid, the switch behaves exactly
as `apply_environment` (so the apply runs only in that case). -/
theorem c1_switch_validation (o : FsOracle) (cfg : Config) (name : Str) (w : World)
    (env : Environment) (hget : cfg.get_environment name = some env) :
    ((∃ e ∈ env.entries, is_valid_hostname e.hostname = false) →
      (switch_environment o cfg name w).1 = w ∧
      ∃ m, (switch_environment o cfg name w).2 = .error m) ∧
    ((∀ e ∈ env.entries, is_valid_hostname e.hostname = true) →
      (switch_environment o cfg name w).1 = (apply_environment o env w).1 ∧
      (switch_environment o cfg name w).2 =
        (match (apply_environment o env w).2 with
         | .error m => .error m
         | .ok _ => .ok { cfg with current_environment := some name })) := by
  constructor
  · rintro ⟨e, he, hbad⟩
    have hfind : (env.entries.find? (fun e => !is_valid_hostname e.hostname)).isSome = true := by
      rw [List.find?_isSome]
      exact ⟨e, he, by simp [hbad]⟩
    obtain ⟨e', hfe⟩ := Option.isSome_iff_exists.mp hfind
    simp only [switch_environment, hget, hfe]
    exact ⟨trivial, _, rfl⟩
  · intro hall
    have hfind : env.entries.find? (fun e => !is_valid_hostname e.hostname) = none := by
      rw [List.find?_eq_none]
      intro x hx
      simp [hall x hx]
    simp only [switch_environment, hget, hfind]
    cases happ : (apply_environment o env w).2 with
    | error m => simp [happ]
    | ok u => simp [happ]

/-- Environment with an invalid hostname, for the C1 witness. -/
def envBad : Environment :=
  ⟨("bad").toList, none, [⟨localhostIp, ("bad-").toList, none⟩]⟩

/-- Environment with only valid hostnames, for the C1 witness. -/
def envGood : Environment :=
  ⟨("good").toList, none, [⟨localhostIp, ("ok.example.com").toList, none⟩]⟩

/-- Configuration holding both C1 witness environments. -/
def cfgC1 : Config :=
  ⟨none, [((("bad").toList), envBad), ((("good").toList), envGood)]⟩

theorem c1_switch_validation_witness :
    ((switch_environment ⟨true, true, true⟩ cfgC1 (("bad").toList) worldW).1 = worldW ∧
      ∃ m, (switch_environment ⟨true, true, true⟩ cfgC1 (("bad").toList) worldW).2 =
        .error m) ∧
    ((switch_environment ⟨true, true, true⟩ cfgC1 (("good").toList) worldW).1 =
        (apply_environment ⟨true, true, true⟩ envGood worldW).1 ∧
      (switch_environment ⟨true, true, true⟩ cfgC1 (("good").toList) worldW).2 =
        (match (apply_environment ⟨true, true, true⟩ envGood worldW).2 with
         | .error m => .error m
         | .ok _ => .ok { cfgC1 with current_environment := some (("good").toList) })) :=
  ⟨(c1_switch_validation ⟨true, true, true⟩ cfgC1 (("bad").toList) worldW envBad
      (by decide)).1
    ⟨⟨localhostIp, ("bad-").toList, none⟩, by decide, by decide⟩,
   (c1_switch_validation ⟨true, true, true⟩ cfgC1 (("good").toList) worldW envGood
      (by decide)).2
    (by decide)⟩

/-! ## Claim C7: `is_valid_hostname` -/

theorem is_valid_hostname_false_of_empty_label {s : Str}
    (h : [] ∈ splitOnChar '.' s) : is_valid_hostname s = false := by
  unfold is_valid_hostname
  split
  · rfl
  · rw [List.all_eq_false]
    exact ⟨[], h, by decide⟩

/-- C7: `is_valid_hostname s` holds iff `s` is non-empty, at most 253
bytes, and every dot-separated label is non-empty, at most 63 bytes, does
not start or end with `'-'` and contains only (Unicode) alphanumerics and
`'-'`; consequently a leading dot, a trailing dot or two consecutive dots
make the hostname invalid. -/
theorem c7_is_valid_hostname (s : Str) :
    (is_valid_hostname s = true ↔
      (s ≠ [] ∧ utf8Len s ≤ 253 ∧ ∀ label ∈ splitOnChar '.' s,
        label ≠ [] ∧ utf8Len label ≤ 63 ∧ label.head? ≠ some '-' ∧
        label.getLast? ≠ some '-' ∧
        ∀ c ∈ label, (rustIsAlphanumeric c = true ∨ c = '-'))) ∧
    (s.head? = some '.' → is_valid_hostname s = false) ∧
    (∀ a, s = a ++ ['.'] → is_valid_hostname s = false) ∧
    (∀ a b, s = a ++ '.' :: '.' :: b → is_valid_hostname s = false) := by
  refine ⟨?_, ?_, ?_, ?_⟩
  · unfold is_valid_hostname
    split
    · rename_i hc
      simp only [Bool.or_eq_true, List.isEmpty_iff, decide_eq_true_eq] at hc
      constructor
      · intro hcon
        simp at hcon
      · rintro ⟨h1, h2, -⟩
        rcases hc with hc | hc
        · exact (h1 hc).elim
        · omega
    · rename_i hc
      simp only [Bool.or_eq_true, List.isEmpty_iff, decide_eq_true_eq, not_or] at hc
      obtain ⟨h1, h2⟩ := hc
      rw [List.all_eq_true]
      constructor
      · intro hall
        refine ⟨h1, by omega, ?_⟩
        intro label hlabel
        have := hall label hlabel
        simp only [Bool.and_eq_true, Bool.not_eq_true', List.isEmpty_eq_false,
          decide_eq_true_eq, beq_eq_false_iff_ne, ne_eq, List.all_eq_true,
          Bool.or_eq_true, beq_iff_eq] at this
        obtain ⟨⟨⟨⟨hne, hlen⟩, hhead⟩, hlast⟩, hchars⟩ := this
        exact ⟨by simpa using hne, hlen, hhead, hlast, hchars⟩
      · rintro ⟨-, -, hlab⟩
        intro label hlabel
        obtain ⟨hne, hlen, hhead, hlast, hchars⟩ := hlab label hlabel
        simp only [Bool.and_eq_true, Bool.not_eq_true', List.isEmpty_eq_false,
          decide_eq_true_eq, beq_eq_false_iff_ne, ne_eq, List.all_eq_true,
          Bool.or_eq_true, beq_iff_eq]
        exact ⟨⟨⟨⟨by simpa using hne, hlen⟩, hhead⟩, hlast⟩, hchars⟩
  · intro hhead
    cases s with
    | nil => simp at hhead
    | cons c r =>
      simp only [List.head?_cons, Option.some.injEq] at hhead
      subst hhead
      apply is_valid_hostname_false_of_empty_label
      have hsplit : splitOnChar '.' ('.' :: r) = [] :: splitOnChar '.' r := by
        unfold splitOnChar
        simp only [splitOnPred, beq_self_eq_true, if_true]
      rw [hsplit]
      exact List.mem_cons_self _ _
  · intro a ha
    subst ha
    apply is_valid_hostname_false_of_empty_label
    unfold splitOnChar
    rw [show (a ++ ['.'] : Str) = a ++ '.' :: [] from rfl,
      splitOnPred_append_sep (by simp) a []]
    exact List.mem_append_right _ (List.mem_cons_self _ _)
  · intro a b hab
    subst hab
    apply is_valid_hostname_false_of_empty_label
    unfold splitOnChar
    rw [splitOnPred_append_sep (by simp) a ('.' :: b)]
    apply List.mem_append_right
    have hsplit : splitOnPred (fun c => c == '.') ('.' :: b) =
        [] :: splitOnPred (fun c => c == '.') b := by
      simp only [splitOnPred, beq_self_eq_true, if_true]
    rw [hsplit]
    exact List.mem_cons_self _ _

theorem c7_is_valid_hostname_witness :
    is_valid_hostname ((".bad").toList) = false ∧
    is_valid_hostname (("bad.").toList) = false ∧
    is_valid_hostname (("bad..name").toList) = false :=
  ⟨(c7_is_valid_hostname ((".bad").toList)).2.1 rfl,
   (c7_is_valid_hostname (("bad.").toList)).2.2.1 (("bad").toList) (by decide),
   (c7_is_valid_hostname (("bad..name").toList)).2.2.2 (("bad").toList)
     (("name").toList) (by decide)⟩

/-! ## Claim C6: the `parse_hosts_line` algorithm -/

/-- C6: `parse_hosts_line` trims the line and rejects empty and
`'#'`-initial lines; otherwise it splits at the first `'#'` (the format
defines no escaping, so every `'#'` is unescaped) — everything after it,
trimmed, is the comment, so a trailing `'#'` yields `some []`, distinct
from `none` — tokenises the part before on whitespace runs, rejects fewer
than two tokens, requires token 0 to parse as an IP address, and returns
the entry whose hostname is token 1 verbatim, discarding any further
tokens. -/
theorem c6_parse_hosts_line (line : Str) :
    (trimStr line = [] → parse_hosts_line line = none) ∧
    ((trimStr line).head? = some '#' → parse_hosts_line line = none) ∧
    (∀ pos, (trimStr line).head? ≠ some '#' →
      (trimStr line).findIdx? (fun c => c == '#') = some pos →
      parse_hosts_line line =
        (match splitWhitespace ((trimStr line).take pos) with
         | p0 :: p1 :: _ =>
           (parseIpAddr p0).map (fun ip =>
             (⟨ip, p1, some (trimStr ((trimStr line).drop (pos + 1)))⟩ : HostEntry))
         | _ => none)) ∧
    (trimStr line ≠ [] → (trimStr line).head? ≠ some '#' →
      (trimStr line).findIdx? (fun c => c == '#') = none →
      parse_hosts_line line =
        (match splitWhitespace (trimStr line) with
         | p0 :: p1 :: _ =>
           (parseIpAddr p0).map (fun ip => (⟨ip, p1, none⟩ : HostEntry))
         | _ => none)) := by
  refine ⟨?_, ?_, ?_, ?_⟩
  · intro h
    simp [parse_hosts_line, h]
  · intro h2
    have hne : trimStr line ≠ [] := by
      intro hcon
      rw [hcon] at h2
      simp at h2
    simp only [parse_hosts_line]
    rw [if_neg (by simp [List.isEmpty_iff, hne]), if_pos h2]
  · intro pos hhash hfind
    have hne : trimStr line ≠ [] := by
      intro hcon
      rw [hcon] at hfind
      simp at hfind
    simp only [parse_hosts_line]
    rw [if_neg (by simp [List.isEmpty_iff, hne]), if_neg hhash, hfind]
    cases hsw : splitWhitespace ((trimStr line).take pos) with
    | nil => rfl
    | cons p0 rest =>
      cases rest with
      | nil => rfl
      | cons p1 rest2 =>
        cases hip : parseIpAddr p0 with
        | some ip => simp [hip]
        | none => simp [hip]
  · intro hne hhash hfind
    simp only [parse_hosts_line]
    rw [if_neg (by simp [List.isEmpty_iff, hne]), if_neg hhash, hfind]
    cases hsw : splitWhitespace (trimStr line) with
    | nil => rfl
    | cons p0 rest =>
      cases rest with
      | nil => rfl
      | cons p1 rest2 =>
        cases hip : parseIpAddr p0 with
        | some ip => simp [hip]
        | none => simp [hip]

theorem c6_parse_hosts_line_witness :
    parse_hosts_line (("   ").toList) = none ∧
    parse_hosts_line (("# just a comment").toList) = none ∧
    parse_hosts_line (("1.2.3.4 h # x").toList) =
      (match splitWhitespace ((trimStr (("1.2.3.4 h # x").toList)).take 10) with
       | p0 :: p1 :: _ =>
         (parseIpAddr p0).map (fun ip =>
           (⟨ip, p1, some (trimStr ((trimStr (("1.2.3.4 h # x").toList)).drop 11))⟩ :
             HostEntry))
       | _ => none) ∧
    parse_hosts_line (("1.2.3.4 h").toList) =
      (match splitWhitespace (trimStr (("1.2.3.4 h").toList)) with
       | p0 :: p1 :: _ =>
         (parseIpAddr p0).map (fun ip => (⟨ip, p1, none⟩ : HostEntry))
       | _ => none) :=
  ⟨(c6_parse_hosts_line (("   ").toList)).1 (by decide),
   (c6_parse_hosts_line (("# just a comment").toList)).2.1 (by decide),
   (c6_parse_hosts_line (("1.2.3.4 h # x").toList)).2.2.1 10 (by decide) (by decide),
   (c6_parse_hosts_line (("1.2.3.4 h").toList)).2.2.2 (by decide) (by decide) (by decide)⟩

/-! ## Claim C10: byte-level safety of the `'#'` split

Rust's `line.find('#')` returns a byte index and `&line[..pos]`,
`&line[pos + 1..]` panic unless `pos` and `pos + 1` are character
boundaries.  The byte level is modelled by UTF-8 encoding; the char-level
parser above is total by construction. -/

/-- UTF-8 encoding of one character (Rust `char::encode_utf8`). -/
def encodeChar (c : Char) : List Nat :=
  if c.toNat < 128 then [c.toNat]
  else if c.toNat < 2048 then [192 + c.toNat / 64, 128 + c.toNat % 64]
  else if c.toNat < 65536 then
    [224 + c.toNat / 4096, 128 + c.toNat / 64 % 64, 128 + c.toNat % 64]
  else
    [240 + c.toNat / 262144, 128 + c.toNat / 4096 % 64, 128 + c.toNat / 64 % 64,
     128 + c.toNat % 64]

/-- UTF-8 encoding of a string, the byte view Rust indexes into. -/
def encodeUtf8 (s : Str) : List Nat := s.flatMap encodeChar

/-- A UTF-8 continuation byte (`0x80..0xBF`). -/
def isContinuationByte (b : Nat) : Bool := decide (128 ≤ b) && decide (b < 192)

/-- Rust `str::is_char_boundary`: the end of the string, or a byte that is
not a continuation byte. -/
def isCharBoundary (bytes : List Nat) (i : Nat) : Prop :=
  i = bytes.length ∨ ∃ b, bytes[i]? = some b ∧ isContinuationByte b = false

theorem encodeChar_ne_nil (c : Char) : encodeChar c ≠ [] := by
  unfold encodeChar
  split_ifs <;> simp

theorem encodeChar_small {c : Char} (h : c.toNat < 128) : encodeChar c = [c.toNat] := by
  unfold encodeChar
  rw [if_pos h]

theorem mem_encodeChar_ge {c : Char} (hv : 128 ≤ c.toNat) :
    ∀ b ∈ encodeChar c, 128 ≤ b := by
  intro b hb
  unfold encodeChar at hb
  split_ifs at hb with h1 h2 h3 <;> simp only [List.mem_cons, List.mem_singleton] at hb
  · omega
  · rcases hb with rfl | rfl | hb
    · omega
    · omega
    · simp at hb
  · rcases hb with rfl | rfl | rfl | hb
    · omega
    · omega
    · omega
    · simp at hb
  · rcases hb with rfl | rfl | rfl | rfl | hb
    · omega
    · omega
    · omega
    · omega
    · simp at hb

theorem encodeChar_head_not_cont {c : Char} {b : Nat}
    (h : (encodeChar c).head? = some b) : isContinuationByte b = false := by
  unfold encodeChar at h
  split_ifs at h with h1 h2 h3 <;>
    simp only [List.head?_cons, Option.some.injEq] at h <;> subst h <;>
    simp only [isContinuationByte, Bool.and_eq_false_iff, decide_eq_false_iff_not,
      not_le, not_lt]
  · left
    omega
  · right
    omega
  · right
    omega
  · right
    omega

theorem encodeUtf8_head_not_cont {s : Str} {b : Nat}
    (h : (encodeUtf8 s)[0]? = some b) : isContinuationByte b = false := by
  cases s with
  | nil => simp [encodeUtf8] at h
  | cons c s' =>
    have hne := encodeChar_ne_nil c
    cases hc : encodeChar c with
    | nil => exact absurd hc hne
    | cons x rest =>
      simp only [encodeUtf8, List.flatMap_cons, hc, List.cons_append,
        List.getElem?_cons_zero, Option.some.injEq] at h
      subst h
      exact encodeChar_head_not_cont (by rw [hc]; rfl)

theorem boundary_append {B : List Nat} {j : Nat} (A : List Nat)
    (h : isCharBoundary B j) : isCharBoundary (A ++ B) (A.length + j) := by
  rcases h with h | ⟨b, hb, hc⟩
  · left
    rw [List.length_append, h]
  · right
    refine ⟨b, ?_, hc⟩
    rw [List.getElem?_append_right (by omega), Nat.add_sub_cancel_left]
    exact hb

theorem next_boundary :
    ∀ (s : Str) (i b : Nat), (encodeUtf8 s)[i]? = some b → b < 128 →
      isCharBoundary (encodeUtf8 s) (i + 1)
  | [], i, b, h, _ => by simp [encodeUtf8] at h
  | c :: s', i, b, h, hb => by
    have hsplit : encodeUtf8 (c :: s') = encodeChar c ++ encodeUtf8 s' := by
      simp [encodeUtf8]
    rw [hsplit] at h ⊢
    by_cases hi : i < (encodeChar c).length
    · have hbyte : (encodeChar c)[i]? = some b := by
        rw [List.getElem?_append_left hi] at h
        exact h
      have hcsmall : c.toNat < 128 := by
        by_contra hcon
        have hmem : b ∈ encodeChar c := by
          obtain ⟨hlt, heq⟩ := List.getElem?_eq_some.mp hbyte
          exact heq ▸ List.getElem_mem hlt
        have := mem_encodeChar_ge (show 128 ≤ c.toNat by omega) b hmem
        omega
      have henc : encodeChar c = [c.toNat] := encodeChar_small hcsmall
      have hi0 : i = 0 := by
        rw [henc] at hi
        simpa using hi
      subst hi0
      have hlen : (encodeChar c).length = 1 := by rw [henc]; rfl
      cases hs' : encodeUtf8 s' with
      | nil =>
        left
        rw [List.length_append, hlen]
        rfl
      | cons y rest =>
        right
        refine ⟨y, ?_, ?_⟩
        · rw [List.getElem?_append_right (by omega), hlen]
          simp
        · exact encodeUtf8_head_not_cont (by rw [hs']; simp)
    · have hge : (encodeChar c).length ≤ i := by omega
      have hbyte : (encodeUtf8 s')[i - (encodeChar c).length]? = some b := by
        rw [List.getElem?_append_right hge] at h
        exact h
      have hrec := next_boundary s' _ b hbyte hb
      have harith : i + 1 = (encodeChar c).length + (i - (encodeChar c).length + 1) := by
        omega
      rw [harith]
      exact boundary_append _ hrec

/-- C10: `parse_hosts_line` is total — it is a function into
`Option HostEntry`, returning `some` or `none` on every string — and at
the byte level every occurrence of the single-byte character `'#'` in
valid UTF-8 sits at a character boundary, as does the position directly
after it, so the slices `&line[..pos]` and `&line[pos + 1..]` taken at the
byte position of the first `'#'` are always at valid character
boundaries. -/
theorem c10_parse_safety (s : Str) (i : Nat)
    (h : (encodeUtf8 s)[i]? = some 35) :
    isCharBoundary (encodeUtf8 s) i ∧ isCharBoundary (encodeUtf8 s) (i + 1) ∧
    (∀ l : Str, parse_hosts_line l = none ∨ ∃ e, parse_hosts_line l = some e) := by
  refine ⟨?_, ?_, ?_⟩
  · right
    exact ⟨35, h, by decide⟩
  · exact next_boundary s i 35 h (by omega)
  · intro l
    cases hp : parse_hosts_line l with
    | none => exact Or.inl rfl
    | some e => exact Or.inr ⟨e, rfl⟩

theorem c10_parse_safety_witness :
    isCharBoundary (encodeUtf8 (("é 1.2.3.4 h # x").toList)) 13 ∧
    isCharBoundary (encodeUtf8 (("é 1.2.3.4 h # x").toList)) 14 ∧
    (∀ l : Str, parse_hosts_line l = none ∨ ∃ e, parse_hosts_line l = some e) :=
  c10_parse_safety (("é 1.2.3.4 h # x").toList) 13 (by decide)


/-! ## Claim C3: the `to_line` / `parse_hosts_line` round trip -/

theorem not_ws_of_toNat {c : Char} (h1 : 33 ≤ c.toNat) (h2 : c.toNat ≤ 127) :
    rustIsWhitespace c = false := by
  simp only [rustIsWhitespace, Bool.or_eq_false_iff, Bool.and_eq_false_iff,
    decide_eq_false_iff_not, not_le, beq_eq_false_iff_ne, ne_eq]
  omega

theorem length_four_form {α : Type} {l : List α} (h : l.length = 4) :
    ∃ a b c d, l = [a, b, c, d] := by
  rcases l with - | ⟨a, l⟩
  · simp at h
  rcases l with - | ⟨b, l⟩
  · simp at h
  rcases l with - | ⟨c, l⟩
  · simp at h
  rcases l with - | ⟨d, l⟩
  · simp at h
  rcases l with - | ⟨e, l⟩
  · exact ⟨a, b, c, d, rfl⟩
  · simp at h

theorem mem_decChars_hex {c : Char} {n : Nat} (h : c ∈ decChars n) :
    isRadixDigit 16 c = true := by
  obtain ⟨d, hd16, hd10, rfl⟩ := mem_digitsF (by omega) (by omega) h
  exact isRadixDigit_digitChar hd16 (by omega)

theorem mem_dispIpv4 {q : Ipv4} {c : Char} (h : c ∈ dispIpv4 q) :
    isRadixDigit 16 c = true ∨ c = '.' := by
  obtain ⟨a, b, c', d, hl⟩ := length_four_form q.property
  unfold dispIpv4 at h
  rw [hl] at h
  simp only [List.mem_append, List.mem_cons] at h
  rcases h with ((h | rfl | h) | rfl | h) | rfl | h
  · exact Or.inl (mem_decChars_hex h)
  · exact Or.inr rfl
  · exact Or.inl (mem_decChars_hex h)
  · exact Or.inr rfl
  · exact Or.inl (mem_decChars_hex h)
  · exact Or.inr rfl
  · exact Or.inl (mem_decChars_hex h)

theorem mem_dispIpv6 {x : Ipv6} {c : Char} (h : c ∈ dispIpv6 x) :
    isRadixDigit 16 c = true ∨ c = '.' ∨ c = ':' := by
  obtain ⟨s0, s1, s2, s3, s4, s5, s6, s7, hl⟩ := length_eight_form x.property
  unfold dispIpv6 at h
  rw [hl] at h
  simp only [] at h
  split_ifs at h with h1 h2
  · simp only [List.mem_cons] at h
    rcases h with rfl | rfl | rfl | rfl | rfl | rfl | rfl | h
    · exact Or.inr (Or.inr rfl)
    · exact Or.inr (Or.inr rfl)
    · exact Or.inl (by decide)
    · exact Or.inl (by decide)
    · exact Or.inl (by decide)
    · exact Or.inl (by decide)
    · exact Or.inr (Or.inr rfl)
    · rcases mem_dispIpv4 h with h | rfl
      · exact Or.inl h
      · exact Or.inr (Or.inl rfl)
  · simp only [List.mem_append, List.mem_cons] at h
    rcases h with h | rfl | rfl | h
    · rcases mem_groupsStr h with h | rfl
      · exact Or.inl h
      · exact Or.inr (Or.inr rfl)
    · exact Or.inr (Or.inr rfl)
    · exact Or.inr (Or.inr rfl)
    · rcases mem_groupsStr h with h | rfl
      · exact Or.inl h
      · exact Or.inr (Or.inr rfl)
  · rcases mem_groupsStr h with h | rfl
    · exact Or.inl h
    · exact Or.inr (Or.inr rfl)

theorem mem_dispIpAddr_class {a : IpAddr} {c : Char} (h : c ∈ dispIpAddr a) :
    rustIsWhitespace c = false ∧ c ≠ '#' := by
  have hr : isRadixDigit 16 c = true ∨ c = '.' ∨ c = ':' := by
    cases a with
    | V4 q =>
      rcases mem_dispIpv4 h with h' | h'
      · exact Or.inl h'
      · exact Or.inr (Or.inl h')
    | V6 x => exact mem_dispIpv6 h
  have hrange : 33 ≤ c.toNat ∧ c.toNat ≤ 127 ∧ c.toNat ≠ 35 := by
    rcases hr with h' | rfl | rfl
    · rcases isRadixDigit_toNat_range h' with ⟨h1, h2⟩ | ⟨h1, h2⟩ | ⟨h1, h2⟩ <;>
        exact ⟨by omega, by omega, by omega⟩
    · exact ⟨by decide, by decide, by decide⟩
    · exact ⟨by decide, by decide, by decide⟩
  refine ⟨not_ws_of_toNat hrange.1 hrange.2.1, ?_⟩
  intro hcon
  subst hcon
  exact hrange.2.2 rfl

theorem hexChars_ne_nil (n : Nat) : hexChars n ≠ [] := digitsF_ne_nil (by omega)

theorem decChars_ne_nil (n : Nat) : decChars n ≠ [] := digitsF_ne_nil (by omega)

theorem dispIpv4_ne_nil (q : Ipv4) : dispIpv4 q ≠ [] := by
  obtain ⟨a, b, c, d, hl⟩ := length_four_form q.property
  unfold dispIpv4
  rw [hl]
  intro hcon
  simp at hcon

theorem dispIpv6_ne_nil (x : Ipv6) : dispIpv6 x ≠ [] := by
  obtain ⟨s0, s1, s2, s3, s4, s5, s6, s7, hl⟩ := length_eight_form x.property
  unfold dispIpv6
  rw [hl]
  simp only []
  split_ifs with h1 h2
  · simp
  · intro hcon
    rcases List.append_eq_nil.mp hcon with ⟨-, hc2⟩
    simp at hc2
  · cases hg : [s0, s1, s2, s3, s4, s5, s6, s7] with
    | nil => simp at hg
    | cons g gs =>
      intro hcon
      rw [groupsStr_cons] at hcon
      exact hexChars_ne_nil g.val (List.append_eq_nil.mp hcon).1

theorem dispIpAddr_ne_nil (a : IpAddr) : dispIpAddr a ≠ [] := by
  cases a with
  | V4 q => exact dispIpv4_ne_nil q
  | V6 x => exact dispIpv6_ne_nil x


theorem mem_splitOnPred {p : Char → Bool} :
    ∀ {s : Str} {c : Char}, c ∈ s →
      p c = true ∨ ∃ part ∈ splitOnPred p s, c ∈ part
  | [], _, h => absurd h (List.not_mem_nil _)
  | d :: cs, c, h => by
    rcases List.mem_cons.mp h with rfl | h'
    · by_cases hp : p c = true
      · exact Or.inl hp
      · right
        simp only [splitOnPred, hp, Bool.false_eq_true, if_false]
        cases hA : splitOnPred p cs with
        | nil => exact absurd hA splitOnPred_ne_nil
        | cons t ts =>
          exact ⟨c :: t, List.mem_cons_self _ _, List.mem_cons_self _ _⟩
    · rcases mem_splitOnPred h' with hp | ⟨part, hpart, hcp⟩
      · exact Or.inl hp
      · right
        by_cases hd : p d = true
        · simp only [splitOnPred, hd, if_true]
          exact ⟨part, List.mem_cons_of_mem _ hpart, hcp⟩
        · simp only [splitOnPred, hd, Bool.false_eq_true, if_false]
          cases hA : splitOnPred p cs with
          | nil => exact absurd hA splitOnPred_ne_nil
          | cons t ts =>
            rw [hA] at hpart
            rcases List.mem_cons.mp hpart with rfl | hp2
            · exact ⟨d :: part, List.mem_cons_self _ _, List.mem_cons_of_mem _ hcp⟩
            · exact ⟨part, List.mem_cons_of_mem _ hp2, hcp⟩

theorem is_valid_hostname_facts {s : Str} (h : is_valid_hostname s = true) :
    s ≠ [] ∧ ∀ c ∈ s, rustIsAlphanumeric c = true ∨ c = '-' ∨ c = '.' := by
  unfold is_valid_hostname at h
  split_ifs at h with h1
  simp only [Bool.or_eq_true, List.isEmpty_iff, decide_eq_true_eq, not_or] at h1
  refine ⟨h1.1, ?_⟩
  intro c hc
  simp only [splitOnChar] at h
  rcases @mem_splitOnPred (fun x => x == '.') s c hc with hdot | ⟨part, hpart, hcp⟩
  · right; right; simpa using hdot
  · have hall := List.all_eq_true.mp h part hpart
    simp only [Bool.and_eq_true] at hall
    have hc2 := List.all_eq_true.mp hall.2 c hcp
    rcases Bool.or_eq_true_iff.mp hc2 with hx | hx
    · exact Or.inl hx
    · exact Or.inr (Or.inl (by simpa using hx))

def wsCodepoints : List Nat :=
  [9, 10, 11, 12, 13, 32, 133, 160, 5760, 8192, 8193, 8194, 8195, 8196,
   8197, 8198, 8199, 8200, 8201, 8202, 8232, 8233, 8239, 8287, 12288]

theorem rustIsWhitespace_mem {c : Char} (h : rustIsWhitespace c = true) :
    c.toNat ∈ wsCodepoints := by
  simp only [rustIsWhitespace, Bool.or_eq_true, Bool.and_eq_true,
    decide_eq_true_eq, beq_iff_eq] at h
  simp only [wsCodepoints, List.mem_cons, List.not_mem_nil, or_false]
  omega

set_option maxRecDepth 4000 in
theorem alnum_no_ws : wsCodepoints.all
    (fun w => alnumRanges.all (fun r => !(r.1 ≤ w && w ≤ r.2))) = true := by
  decide

set_option maxRecDepth 4000 in
theorem alnum_no_hash :
    alnumRanges.all (fun r => !(r.1 ≤ 35 && 35 ≤ r.2)) = true := by
  decide

theorem host_char_class {c : Char}
    (h : rustIsAlphanumeric c = true ∨ c = '-' ∨ c = '.') :
    rustIsWhitespace c = false ∧ c ≠ '#' := by
  rcases h with h | rfl | rfl
  · simp only [rustIsAlphanumeric, List.any_eq_true, Bool.and_eq_true,
      decide_eq_true_eq] at h
    obtain ⟨r, hr, h1, h2⟩ := h
    constructor
    · cases hws : rustIsWhitespace c with
      | false => rfl
      | true =>
        have hmem := rustIsWhitespace_mem hws
        have hall := List.all_eq_true.mp alnum_no_ws c.toNat hmem
        have hthis := List.all_eq_true.mp hall r hr
        simp only [Bool.not_eq_true', Bool.and_eq_false_iff,
          decide_eq_false_iff_not, not_le] at hthis
        omega
    · intro hcon
      subst hcon
      have hthis := List.all_eq_true.mp alnum_no_hash r hr
      simp only [Bool.not_eq_true', Bool.and_eq_false_iff,
        decide_eq_false_iff_not, not_le] at hthis
      have h35 : ('#').toNat = 35 := rfl
      rw [h35] at h1 h2
      omega
  · decide
  · decide


theorem trimStr_cons_ws {a : Char} (ha : rustIsWhitespace a = true) (s : Str) :
    trimStr (a :: s) = trimStr s := by
  unfold trimStr
  rw [List.dropWhile_cons_of_pos ha]

theorem trimStr_eq_self {s : Str}
    (hh : ∀ b, s.head? = some b → rustIsWhitespace b = false)
    (hl : ∀ b, s.getLast? = some b → rustIsWhitespace b = false) :
    trimStr s = s := by
  unfold trimStr
  rw [dropWhile_eq_self_of_head hh]
  rw [dropWhile_eq_self_of_head
    (fun b hb => hl b (by rwa [List.head?_reverse] at hb))]
  exact List.reverse_reverse s

theorem trimStr_snoc_ws {s : Str} {a : Char} (ha : rustIsWhitespace a = true)
    (hs : s ≠ [])
    (hh : ∀ b, s.head? = some b → rustIsWhitespace b = false)
    (hl : ∀ b, s.getLast? = some b → rustIsWhitespace b = false) :
    trimStr (s ++ [a]) = s := by
  unfold trimStr
  have hh' : ∀ b, (s ++ [a]).head? = some b → rustIsWhitespace b = false := by
    intro b hb
    cases s with
    | nil => exact absurd rfl hs
    | cons x t =>
      simp only [List.cons_append, List.head?_cons, Option.some.injEq] at hb
      subst hb
      exact hh x rfl
  rw [dropWhile_eq_self_of_head hh']
  rw [List.reverse_append]
  simp only [List.reverse_cons, List.reverse_nil, List.nil_append,
    List.singleton_append]
  rw [List.dropWhile_cons_of_pos ha]
  rw [dropWhile_eq_self_of_head
    (fun b hb => hl b (by rwa [List.head?_reverse] at hb))]
  exact List.reverse_reverse s

theorem trimStr_fix {s : Str} (h : trimStr s = s) :
    (∀ b, s.head? = some b → rustIsWhitespace b = false) ∧
    (∀ b, s.getLast? = some b → rustIsWhitespace b = false) := by
  have hsuf1 : (s.dropWhile rustIsWhitespace) <:+ s := List.dropWhile_suffix _
  have hsuf2 : ((s.dropWhile rustIsWhitespace).reverse.dropWhile rustIsWhitespace) <:+
      (s.dropWhile rustIsWhitespace).reverse := List.dropWhile_suffix _
  have hlen : (trimStr s).length = s.length := by rw [h]
  have hlen2 :
      ((s.dropWhile rustIsWhitespace).reverse.dropWhile rustIsWhitespace).length =
        (trimStr s).length := by
    unfold trimStr
    rw [List.length_reverse]
  have hle1 := hsuf1.length_le
  have hle2 := hsuf2.length_le
  rw [List.length_reverse] at hle2
  have hd1 : s.dropWhile rustIsWhitespace = s := hsuf1.eq_of_length (by omega)
  have hd2 : (s.dropWhile rustIsWhitespace).reverse.dropWhile rustIsWhitespace =
      (s.dropWhile rustIsWhitespace).reverse :=
    hsuf2.eq_of_length (by rw [List.length_reverse]; omega)
  rw [hd1] at hd2
  constructor
  · intro b hb
    by_contra hcon
    have hws : rustIsWhitespace b = true := by
      cases hww : rustIsWhitespace b
      · exact absurd hww hcon
      · rfl
    cases s with
    | nil => simp at hb
    | cons x t =>
      simp only [List.head?_cons, Option.some.injEq] at hb
      subst hb
      rw [List.dropWhile_cons_of_pos hws] at hd1
      have hts : t.dropWhile rustIsWhitespace <:+ t := List.dropWhile_suffix _
      have := hts.length_le
      rw [hd1, List.length_cons] at this
      omega
  · intro b hb
    by_contra hcon
    have hws : rustIsWhitespace b = true := by
      cases hww : rustIsWhitespace b
      · exact absurd hww hcon
      · rfl
    have hb' : s.reverse.head? = some b := by rw [List.head?_reverse]; exact hb
    cases hr : s.reverse with
    | nil => rw [hr] at hb'; simp at hb'
    | cons x t =>
      rw [hr] at hb' hd2
      simp only [List.head?_cons, Option.some.injEq] at hb'
      subst hb'
      rw [List.dropWhile_cons_of_pos hws] at hd2
      have hts : t.dropWhile rustIsWhitespace <:+ t := List.dropWhile_suffix _
      have := hts.length_le
      rw [hd2, List.length_cons] at this
      omega

theorem findIdx?_eq_none {α : Type} {p : α → Bool} :
    ∀ {l : List α}, (∀ a ∈ l, p a = false) → l.findIdx? p = none
  | [], _ => rfl
  | a :: l, h => by
    rw [List.findIdx?_cons]
    rw [if_neg (by simp [h a (List.mem_cons_self a l)])]
    rw [List.findIdx?_succ]
    rw [findIdx?_eq_none (fun x hx => h x (List.mem_cons_of_mem a hx))]
    rfl

theorem findIdx?_append_sep {α : Type} {p : α → Bool} {x : α} (hx : p x = true) :
    ∀ (A r : List α), (∀ a ∈ A, p a = false) →
      (A ++ x :: r).findIdx? p = some A.length
  | [], r, _ => by
    rw [List.nil_append, List.findIdx?_cons, if_pos hx]
    rfl
  | a :: A, r, h => by
    rw [List.cons_append, List.findIdx?_cons]
    rw [if_neg (by simp [h a (List.mem_cons_self a A)])]
    rw [List.findIdx?_succ]
    rw [findIdx?_append_sep hx A r (fun y hy => h y (List.mem_cons_of_mem a hy))]
    rfl

theorem splitWhitespace_two {D H : Str} (hD : D ≠ []) (hH : H ≠ [])
    (hDw : ∀ ch ∈ D, rustIsWhitespace ch = false)
    (hHw : ∀ ch ∈ H, rustIsWhitespace ch = false) :
    splitWhitespace (D ++ ' ' :: H) = [D, H] := by
  unfold splitWhitespace
  rw [splitOnPred_append_sep (by decide) D H]
  rw [splitOnPred_clean hDw, splitOnPred_clean hHw]
  simp [List.filter_cons, hD, hH]

theorem splitWhitespace_two_pad {D H : Str} (hD : D ≠ []) (hH : H ≠ [])
    (hDw : ∀ ch ∈ D, rustIsWhitespace ch = false)
    (hHw : ∀ ch ∈ H, rustIsWhitespace ch = false) :
    splitWhitespace (D ++ ' ' :: (H ++ [' '])) = [D, H] := by
  unfold splitWhitespace
  rw [splitOnPred_append_sep (by decide) D (H ++ [' '])]
  rw [show (H ++ [' '] : Str) = H ++ ' ' :: [] from rfl]
  rw [splitOnPred_append_sep (by decide) H []]
  rw [splitOnPred_clean hDw, splitOnPred_clean hHw]
  simp [splitOnPred, List.filter_cons, hD, hH]


theorem parse_hosts_line_eval_none {line : Str} (hne : trimStr line ≠ [])
    (hhash : (trimStr line).head? ≠ some '#')
    (hfind : (trimStr line).findIdx? (fun c => c == '#') = none) :
    parse_hosts_line line =
      (match splitWhitespace (trimStr line) with
       | p0 :: p1 :: _ =>
         (parseIpAddr p0).map (fun ip => (⟨ip, p1, none⟩ : HostEntry))
       | _ => none) := by
  simp only [parse_hosts_line]
  rw [if_neg (by simp [List.isEmpty_iff, hne]), if_neg hhash, hfind]
  cases hsw : splitWhitespace (trimStr line) with
  | nil => rfl
  | cons p0 rest =>
    cases rest with
    | nil => rfl
    | cons p1 rest2 =>
      cases hip : parseIpAddr p0 with
      | some ip => simp [hip]
      | none => simp [hip]

theorem parse_hosts_line_eval_some {line : Str} {pos : Nat}
    (hhash : (trimStr line).head? ≠ some '#')
    (hfind : (trimStr line).findIdx? (fun c => c == '#') = some pos) :
    parse_hosts_line line =
      (match splitWhitespace ((trimStr line).take pos) with
       | p0 :: p1 :: _ =>
         (parseIpAddr p0).map (fun ip =>
           (⟨ip, p1, some (trimStr ((trimStr line).drop (pos + 1)))⟩ : HostEntry))
       | _ => none) := by
  have hne : trimStr line ≠ [] := by
    intro hcon
    rw [hcon] at hfind
    simp at hfind
  simp only [parse_hosts_line]
  rw [if_neg (by simp [List.isEmpty_iff, hne]), if_neg hhash, hfind]
  cases hsw : splitWhitespace ((trimStr line).take pos) with
  | nil => rfl
  | cons p0 rest =>
    cases rest with
    | nil => rfl
    | cons p1 rest2 =>
      cases hip : parseIpAddr p0 with
      | some ip => simp [hip]
      | none => simp [hip]

/-- C3 (amended): for every `HostEntry` whose hostname passes
`is_valid_hostname`, serialising with `to_line` and re-parsing with
`parse_hosts_line` returns the entry exactly, provided the comment — when
present — contains no `'#'` and is fixed by `trim` (`trimStr s = s`); in
particular the no-comment round trip always holds for valid hostnames. -/
theorem c3_roundtrip (e : HostEntry)
    (hhost : is_valid_hostname e.hostname = true)
    (hcom : ∀ s, e.comment = some s → ('#' ∉ s ∧ trimStr s = s)) :
    parse_hosts_line (HostEntry.to_line e) = some e := by
  obtain ⟨ip, H, co⟩ := e
  have hfacts := is_valid_hostname_facts hhost
  have hHne : H ≠ [] := hfacts.1
  have hHcc : ∀ ch ∈ H, rustIsWhitespace ch = false ∧ ch ≠ '#' :=
    fun ch hch => host_char_class (hfacts.2 ch hch)
  have hDcc : ∀ ch ∈ dispIpAddr ip, rustIsWhitespace ch = false ∧ ch ≠ '#' :=
    fun ch hch => mem_dispIpAddr_class hch
  have hDne : dispIpAddr ip ≠ [] := dispIpAddr_ne_nil ip
  obtain ⟨d0, D', hD⟩ : ∃ d0 D', dispIpAddr ip = d0 :: D' := by
    cases hD : dispIpAddr ip with
    | nil => exact absurd hD hDne
    | cons x t => exact ⟨x, t, rfl⟩
  have hd0 : d0 ∈ dispIpAddr ip := by rw [hD]; exact List.mem_cons_self _ _
  have hheadX : ∀ X : Str, (dispIpAddr ip ++ X).head? = some d0 := by
    intro X
    rw [hD]
    rfl
  cases co with
  | none =>
    have hline : HostEntry.to_line ⟨ip, H, none⟩ = dispIpAddr ip ++ ' ' :: H := rfl
    have hno : ∀ a ∈ dispIpAddr ip ++ ' ' :: H, ((a == '#') = false) := by
      intro a ha
      rcases List.mem_append.mp ha with ha | ha
      · simp only [beq_eq_false_iff_ne, ne_eq]
        exact (hDcc a ha).2
      · rcases List.mem_cons.mp ha with rfl | ha
        · decide
        · simp only [beq_eq_false_iff_ne, ne_eq]
          exact (hHcc a ha).2
    have htrim : trimStr (dispIpAddr ip ++ ' ' :: H) = dispIpAddr ip ++ ' ' :: H := by
      apply trimStr_eq_self
      · intro b hb
        rw [hheadX (' ' :: H)] at hb
        simp only [Option.some.injEq] at hb
        subst hb
        exact (hDcc d0 hd0).1
      · intro b hb
        rw [show dispIpAddr ip ++ ' ' :: H = (dispIpAddr ip ++ [' ']) ++ H by simp]
          at hb
        rw [List.getLast?_append_of_ne_nil _ hHne] at hb
        exact (hHcc b (List.mem_of_mem_getLast? hb)).1
    rw [hline]
    have hne0 : trimStr (dispIpAddr ip ++ ' ' :: H) ≠ [] := by
      rw [htrim, hD]
      simp
    have hhash0 : (trimStr (dispIpAddr ip ++ ' ' :: H)).head? ≠ some '#' := by
      intro hcon
      rw [htrim, hheadX (' ' :: H)] at hcon
      simp only [Option.some.injEq] at hcon
      exact (hDcc d0 hd0).2 hcon
    have hfind0 : (trimStr (dispIpAddr ip ++ ' ' :: H)).findIdx?
        (fun c => c == '#') = none := by
      rw [htrim]
      exact findIdx?_eq_none hno
    rw [parse_hosts_line_eval_none hne0 hhash0 hfind0, htrim,
      splitWhitespace_two hDne hHne (fun ch hch => (hDcc ch hch).1)
        (fun ch hch => (hHcc ch hch).1)]
    show (parseIpAddr (dispIpAddr ip)).map
        (fun i => (⟨i, H, none⟩ : HostEntry)) = some ⟨ip, H, none⟩
    rw [parseIpAddr_disp]
    rfl
  | some s =>
    obtain ⟨hnos, htrims⟩ := hcom s rfl
    have hsfix := trimStr_fix htrims
    have hnoA : ∀ a ∈ dispIpAddr ip ++ ' ' :: (H ++ [' ']), ((a == '#') = false) := by
      intro a ha
      rcases List.mem_append.mp ha with ha | ha
      · simp only [beq_eq_false_iff_ne, ne_eq]
        exact (hDcc a ha).2
      · rcases List.mem_cons.mp ha with rfl | ha
        · decide
        · rcases List.mem_append.mp ha with ha | ha
          · simp only [beq_eq_false_iff_ne, ne_eq]
            exact (hHcc a ha).2
          · rcases List.mem_cons.mp ha with rfl | ha
            · decide
            · exact absurd ha (List.not_mem_nil a)
    have main : ∀ r : Str,
        trimStr (HostEntry.to_line ⟨ip, H, some s⟩) =
          (dispIpAddr ip ++ ' ' :: (H ++ [' '])) ++ '#' :: r →
        trimStr r = s →
        parse_hosts_line (HostEntry.to_line ⟨ip, H, some s⟩) =
          some ⟨ip, H, some s⟩ := by
      intro r htrim htr
      have hhash1 : (trimStr (HostEntry.to_line ⟨ip, H, some s⟩)).head? ≠
          some '#' := by
        intro hcon
        rw [htrim] at hcon
        rw [show (dispIpAddr ip ++ ' ' :: (H ++ [' '])) ++ '#' :: r =
          dispIpAddr ip ++ (' ' :: (H ++ [' ']) ++ '#' :: r) by simp] at hcon
        rw [hheadX] at hcon
        simp only [Option.some.injEq] at hcon
        exact (hDcc d0 hd0).2 hcon
      have hfind1 : (trimStr (HostEntry.to_line ⟨ip, H, some s⟩)).findIdx?
          (fun c => c == '#') =
          some (dispIpAddr ip ++ ' ' :: (H ++ [' '])).length := by
        rw [htrim]
        exact findIdx?_append_sep (by decide) _ r hnoA
      have hdrop : ((dispIpAddr ip ++ ' ' :: (H ++ [' '])) ++ '#' :: r).drop
          ((dispIpAddr ip ++ ' ' :: (H ++ [' '])).length + 1) = r := by
        rw [List.drop_append 1]
        rfl
      rw [parse_hosts_line_eval_some hhash1 hfind1, htrim, List.take_left,
        hdrop, htr,
        splitWhitespace_two_pad hDne hHne (fun ch hch => (hDcc ch hch).1)
          (fun ch hch => (hHcc ch hch).1)]
      show (parseIpAddr (dispIpAddr ip)).map
          (fun i => (⟨i, H, some s⟩ : HostEntry)) = some ⟨ip, H, some s⟩
      rw [parseIpAddr_disp]
      rfl
    cases s with
    | nil =>
      apply main []
      · have hQh : ∀ b, ((dispIpAddr ip ++ ' ' :: (H ++ [' '])) ++ ['#']).head? =
            some b → rustIsWhitespace b = false := by
          intro b hb
          rw [show (dispIpAddr ip ++ ' ' :: (H ++ [' '])) ++ ['#'] =
            dispIpAddr ip ++ (' ' :: (H ++ [' ']) ++ ['#']) by simp] at hb
          rw [hheadX] at hb
          simp only [Option.some.injEq] at hb
          subst hb
          exact (hDcc d0 hd0).1
        have hQl : ∀ b, ((dispIpAddr ip ++ ' ' :: (H ++ [' '])) ++ ['#']).getLast? =
            some b → rustIsWhitespace b = false := by
          intro b hb
          rw [List.getLast?_append_of_ne_nil _ (by simp)] at hb
          simp only [List.getLast?_singleton, Option.some.injEq] at hb
          subst hb
          decide
        have hline0 : HostEntry.to_line ⟨ip, H, some []⟩ =
            ((dispIpAddr ip ++ ' ' :: (H ++ [' '])) ++ ['#']) ++ [' '] := by
          simp [HostEntry.to_line]
        rw [hline0]
        rw [trimStr_snoc_ws (by decide) (by simp) hQh hQl]
      · rfl
    | cons c0 s' =>
      apply main (' ' :: (c0 :: s'))
      · have hline1 : HostEntry.to_line ⟨ip, H, some (c0 :: s')⟩ =
            (dispIpAddr ip ++ ' ' :: (H ++ [' '])) ++ '#' :: (' ' :: (c0 :: s')) := by
          simp [HostEntry.to_line]
        rw [hline1]
        apply trimStr_eq_self
        · intro b hb
          rw [show (dispIpAddr ip ++ ' ' :: (H ++ [' '])) ++
            '#' :: (' ' :: (c0 :: s')) =
            dispIpAddr ip ++ (' ' :: (H ++ [' ']) ++ '#' :: ' ' :: c0 :: s')
            by simp] at hb
          rw [hheadX] at hb
          simp only [Option.some.injEq] at hb
          subst hb
          exact (hDcc d0 hd0).1
        · intro b hb
          rw [show (dispIpAddr ip ++ ' ' :: (H ++ [' '])) ++
            '#' :: (' ' :: (c0 :: s')) =
            (dispIpAddr ip ++ ' ' :: (H ++ [' ']) ++ ['#', ' ']) ++ (c0 :: s')
            by simp] at hb
          rw [List.getLast?_append_of_ne_nil _ (by simp)] at hb
          exact hsfix.2 b hb
      · rw [trimStr_cons_ws (by decide)]
        exact htrims


/-- C3 counterexample: the comment `" x"` contains no `'#'`, the hostname
`"h"` is valid, yet the round trip returns the comment trimmed to `"x"`,
not the original entry: the claim's with-comment half is false for
comments with surrounding whitespace. -/
theorem c3_roundtrip_counterexample :
    is_valid_hostname (("h").toList) = true ∧
    ('#') ∉ ((" x").toList) ∧
    parse_hosts_line
        (HostEntry.to_line ⟨localhostIp, ("h").toList, some ((" x").toList)⟩) ≠
      some ⟨localhostIp, ("h").toList, some ((" x").toList)⟩ := by
  decide

theorem c3_roundtrip_witness :
    is_valid_hostname (("localhost").toList) = true ∧
    ('#') ∉ (("dev box").toList) ∧ trimStr (("dev box").toList) = ("dev box").toList ∧
    parse_hosts_line
        (HostEntry.to_line
          ⟨localhostIp, ("localhost").toList, some (("dev box").toList)⟩) =
      some ⟨localhostIp, ("localhost").toList, some (("dev box").toList)⟩ :=
  ⟨by decide, by decide, by decide,
   c3_roundtrip _ (by decide) (fun c hc => by
     injection hc with h
     rw [← h]
     exact ⟨by decide, by decide⟩)⟩


end Hostctl
